import Mathlib

/-!
# Verification of the vector-extensions upload-sink and TopSQL cores

This file gives a shallow embedding, in Lean 4, of the algorithmic cores of
the `tidbcloud/vector-extensions` repository, and proves (or refutes) the
frozen claims C1..C10 about them.

Modelling conventions, used throughout:

* Machine integers (`u32`, `u64`, `usize`, `i32`) are modelled as `Nat`.
  Counter additions in the code are modelled without wrap-around: every claim
  below is either evaluated at small concrete inputs, or it concerns fields
  that the code copies without arithmetic, so two's-complement wrap-around
  never matters for the statements proved here.
* `std::time::SystemTime` / `chrono::DateTime<Utc>` values are modelled as
  `Nat` (an absolute timestamp), `Duration` as a `Nat` (in the unit noted at
  each use site).
* Rust `HashMap` / `BTreeMap` values are modelled as association lists
  (`List (κ × ν)`).  `HashMap` iteration order is unspecified in Rust and
  `BTreeMap` iterates in ascending key order; the association lists here
  iterate in insertion order.  Every claim proved below is insensitive to
  that order (the statements are sums, permutations, or per-key lookups).
* `HashSet` values are modelled as `List` with membership.
* External MD5 (`md5::Md5::digest`, an external crate) is a parameter
  `md5 : List Nat → List Nat` of the definitions that call it;
  `hex::encode` / the `LowerHex` byte formatting are embedded concretely.
* Rust's `sort_by` is a stable sort; a stable sort's output is uniquely
  determined by the comparator and the input order, so it is embedded as
  `List.insertionSort` (which is stable) with the same comparator.
* Filesystem / network effects are embedded as explicit state: the
  checkpoint files become an explicit "disk" value holding the decoded
  states, and the S3 client calls become constructors of a result type.
-/

namespace VecExt

/-! ## Association-list helpers (model of HashMap / BTreeMap contents)

`lookupA` finds the first binding of a key.  `setA` models `insert`
(overwrite-or-add), `appendAt` models the `match get_mut { None => insert
vec![x], Some v => v.push(x) }` idiom, and `modAt` models in-place update of
an existing entry.  All maps built from `[]` by these operations have
`Nodup` keys. -/

def lookupA {ν : Type} [DecidableEq κ] (k : κ) : List (κ × ν) → Option ν
  | [] => none
  | (k', v) :: rest => if k' = k then some v else lookupA k rest

def setA {ν : Type} [DecidableEq κ] (k : κ) (v : ν) : List (κ × ν) → List (κ × ν)
  | [] => [(k, v)]
  | (k', v') :: rest => if k' = k then (k, v) :: rest else (k', v') :: setA k v rest

def appendAt {ν : Type} [DecidableEq κ] (k : κ) (x : ν) : List (κ × List ν) → List (κ × List ν)
  | [] => [(k, [x])]
  | (k', v) :: rest =>
    if k' = k then (k', v ++ [x]) :: rest else (k', v) :: appendAt k x rest

def keysA {ν : Type} (m : List (κ × ν)) : List κ := m.map Prod.fst

theorem lookupA_setA_self {ν : Type} [DecidableEq κ] (k : κ) (v : ν) (m : List (κ × ν)) :
    lookupA k (setA k v m) = some v := by
  induction m with
  | nil => simp [setA, lookupA]
  | cons p rest ih =>
    obtain ⟨k', v'⟩ := p
    by_cases h : k' = k <;> simp [setA, h, lookupA, ih]

theorem lookupA_setA_ne {ν : Type} [DecidableEq κ] (k k' : κ) (v : ν) (m : List (κ × ν))
    (h : k' ≠ k) : lookupA k' (setA k v m) = lookupA k' m := by
  induction m with
  | nil => simp [setA, lookupA, Ne.symm h]
  | cons p rest ih =>
    obtain ⟨ka, va⟩ := p
    by_cases hk : ka = k
    · subst hk
      simp [setA, lookupA, Ne.symm h]
    · by_cases hk' : ka = k' <;> simp [setA, hk, lookupA, hk', ih, h]

theorem lookupA_appendAt_self {ν : Type} [DecidableEq κ] (k : κ) (x : ν)
    (m : List (κ × List ν)) :
    lookupA k (appendAt k x m) = some (((lookupA k m).getD []) ++ [x]) := by
  induction m with
  | nil => simp [appendAt, lookupA]
  | cons p rest ih =>
    obtain ⟨k', v⟩ := p
    by_cases h : k' = k <;> simp [appendAt, h, lookupA, ih]

theorem lookupA_appendAt_ne {ν : Type} [DecidableEq κ] (k k' : κ) (x : ν)
    (m : List (κ × List ν)) (h : k' ≠ k) :
    lookupA k' (appendAt k x m) = lookupA k' m := by
  induction m with
  | nil => simp [appendAt, lookupA, Ne.symm h]
  | cons p rest ih =>
    obtain ⟨ka, va⟩ := p
    by_cases hk : ka = k
    · subst hk
      simp [appendAt, lookupA, Ne.symm h]
    · by_cases hk' : ka = k' <;> simp [appendAt, hk, lookupA, hk', ih, h]

theorem keysA_appendAt {ν : Type} [DecidableEq κ] (k : κ) (x : ν) (m : List (κ × List ν)) :
    keysA (appendAt k x m) = if k ∈ keysA m then keysA m else keysA m ++ [k] := by
  induction m with
  | nil => simp [appendAt, keysA]
  | cons p rest ih =>
    obtain ⟨k', v⟩ := p
    by_cases h : k' = k
    · subst h; simp [appendAt, keysA]
    · have h' : k ≠ k' := Ne.symm h
      by_cases hm : k ∈ keysA rest
      · simp only [appendAt, if_neg h, keysA, List.map_cons] at ih ⊢
        rw [ih]
        simp [keysA] at hm
        simp [hm, h']
      · simp only [appendAt, if_neg h, keysA, List.map_cons] at ih ⊢
        rw [ih]
        simp [keysA] at hm
        simp [hm, h']

theorem nodup_keysA_appendAt {ν : Type} [DecidableEq κ] (k : κ) (x : ν)
    (m : List (κ × List ν)) (h : (keysA m).Nodup) : (keysA (appendAt k x m)).Nodup := by
  rw [keysA_appendAt]
  by_cases hm : k ∈ keysA m
  · simpa [hm]
  · simpa [hm, List.nodup_append] using h

/-! ## C4 — reconnect backoff
Embedded from `extensions/topsql/src/upstream/mod.rs`
(`TopSQLSource::run_loop`, `TopSQLSource::on_connected`).
Durations are in nanoseconds. -/

/-- `MAX_RETRY_DELAY = Duration::from_secs(60)`, in nanoseconds. -/
def maxRetryDelay : Nat := 60 * 1000000000

/-- The `retry_delay` bookkeeping of `TopSQLSource`: `init_retry_delay` is set
from the configuration, and `new` initialises `retry_delay: init_retry_delay`. -/
structure TopSQLSourceState where
  initRetryDelay : Nat
  retryDelay : Nat
deriving DecidableEq

/-- `TopSQLSource::new`: `retry_delay` starts at `init_retry_delay`. -/
def TopSQLSourceState.new (initRetryDelay : Nat) : TopSQLSourceState :=
  { initRetryDelay := initRetryDelay, retryDelay := initRetryDelay }

/-- The `State::RetryDelay` arm of `run_loop`:
`self.retry_delay *= 2; if self.retry_delay > MAX_RETRY_DELAY { self.retry_delay = MAX_RETRY_DELAY }`,
then `time::sleep(self.retry_delay)`. -/
def nextRetryDelay (cur : Nat) : Nat :=
  if cur * 2 > maxRetryDelay then maxRetryDelay else cur * 2

/-- One `run_loop` iteration outcome handling: `RetryNow` sleeps nothing,
`RetryDelay` updates `retry_delay` and sleeps the updated value. -/
inductive RunOnceState where
  | retryNow
  | retryDelay
deriving DecidableEq

def runLoopStep (s : TopSQLSourceState) : RunOnceState → TopSQLSourceState × Option Nat
  | RunOnceState.retryNow => (s, none)
  | RunOnceState.retryDelay =>
    let d := nextRetryDelay s.retryDelay
    ({ s with retryDelay := d }, some d)

/-- `TopSQLSource::on_connected`: `self.retry_delay = self.init_retry_delay`. -/
def onConnected (s : TopSQLSourceState) : TopSQLSourceState :=
  { s with retryDelay := s.initRetryDelay }

/-- The sequence of delays slept by `k` consecutive `RetryDelay` outcomes
starting from a stored `retry_delay` of `cur`. -/
def sleptDelays (cur : Nat) : Nat → List Nat
  | 0 => []
  | Nat.succ k => nextRetryDelay cur :: sleptDelays (nextRetryDelay cur) k

theorem min_double_pow (i c : Nat) :
    min (2 ^ (i + 1) * min (2 * c) maxRetryDelay) maxRetryDelay
      = min (2 ^ (i + 2) * c) maxRetryDelay := by
  rcases Nat.le_total (2 * c) maxRetryDelay with h | h
  · rw [Nat.min_eq_left h]
    congr 1
    ring
  · rw [Nat.min_eq_right h]
    have h1 : maxRetryDelay ≤ 2 ^ (i + 1) * maxRetryDelay :=
      Nat.le_mul_of_pos_left _ (Nat.pos_pow_of_pos _ (by norm_num))
    have h2 : maxRetryDelay ≤ 2 ^ (i + 2) * c := by
      calc maxRetryDelay ≤ 2 * c := h
        _ ≤ 2 ^ (i + 2) * c := by
            apply Nat.mul_le_mul_right
            calc 2 = 2 ^ 1 := by norm_num
              _ ≤ 2 ^ (i + 2) := Nat.pow_le_pow_right (by norm_num) (by omega)
    rw [Nat.min_eq_right h1, Nat.min_eq_right h2]

theorem nextRetryDelay_eq_min (c : Nat) : nextRetryDelay c = min (2 * c) maxRetryDelay := by
  unfold nextRetryDelay
  have h2 : c * 2 = 2 * c := by ring
  rw [h2]
  rcases Nat.lt_or_ge maxRetryDelay (2 * c) with h | h
  · rw [if_pos h, Nat.min_eq_right (Nat.le_of_lt h)]
  · rw [if_neg (Nat.not_lt.mpr h), Nat.min_eq_left h]

theorem sleptDelays_closed (k : Nat) : ∀ c : Nat,
    sleptDelays c k = (List.range k).map (fun i => min (2 ^ (i + 1) * c) maxRetryDelay) := by
  induction k with
  | zero => intro c; simp [sleptDelays]
  | succ k ih =>
    intro c
    rw [List.range_succ_eq_map]
    simp only [sleptDelays, List.map_cons, List.map_map, List.cons.injEq]
    refine ⟨?_, ?_⟩
    · rw [nextRetryDelay_eq_min]
      norm_num
    · rw [ih (nextRetryDelay c)]
      apply List.map_congr_left
      intro i _
      simp only [Function.comp_apply]
      rw [nextRetryDelay_eq_min]
      have : Nat.succ i + 1 = i + 2 := by omega
      rw [this]
      exact min_double_pow i c

/-- Claim C4 (amended): starting from a freshly constructed source or right
after a successful connect (`on_connected` resets `retry_delay` to the
configured initial delay `d`), the delays slept by successive consecutive
failures are `min(2d, 60s), min(4d, 60s), min(8d, 60s), …` — the doubling is
applied *before* the sleep, so the delay slept after the very first failure
is `2d` (capped), not `d`.  A `RetryNow` outcome sleeps nothing. -/
theorem c4_backoff_theorem (s : TopSQLSourceState) (k : Nat) :
    sleptDelays (onConnected s).retryDelay k
        = (List.range k).map
            (fun i => min (2 ^ (i + 1) * s.initRetryDelay) maxRetryDelay)
      ∧ (onConnected s).retryDelay = s.initRetryDelay
      ∧ (runLoopStep s RunOnceState.retryNow).2 = none
      ∧ (runLoopStep (onConnected s) RunOnceState.retryDelay).2
          = some (min (2 * s.initRetryDelay) maxRetryDelay) := by
  refine ⟨?_, rfl, rfl, ?_⟩
  · exact sleptDelays_closed k _
  · simp [runLoopStep, onConnected, nextRetryDelay_eq_min]

/-- Claim C4, counterexample to the claim as stated: with a configured
initial retry delay of 1 second (10^9 ns), the delay slept after the very
first failure is 2 seconds, not the claimed `d` = 1 second. -/
theorem c4_backoff_counterexample :
    sleptDelays (TopSQLSourceState.new 1000000000).retryDelay 1 ≠ [1000000000] := by
  decide

/-! ## C6 — S3 upload path selection
Embedded from `extensions/aws-s3-upload-file/src/uploader.rs`
(`S3Uploader::do_upload`).  The file content is a list of bytes; the first
read (`file.take(CHUNK_SIZE).read_to_end`) yields the first
`min(size, CHUNK_SIZE)` bytes. -/

/-- `S3_MULTIPART_UPLOAD_CHUNK_SIZE = 8 * 1024 * 1024`. -/
def s3MultipartUploadChunkSize : Nat := 8 * 1024 * 1024

/-- `S3_MULTIPART_UPLOAD_MAX_CHUNKS = 10000`. -/
def s3MultipartUploadMaxChunks : Nat := 10000

/-- Which path `do_upload` takes for a file.  `putObject body` stands for the
single-shot path (abort all in-progress multipart uploads for the key, then
one `PutObject` of `body` with its content-MD5); `multipartUpload firstChunk`
stands for the multipart path entered with the first chunk already read. -/
inductive S3UploadCall where
  | putObject (body : List Nat)
  | multipartUpload (firstChunk : List Nat)
deriving DecidableEq

/-- `S3Uploader::do_upload`: read the first chunk; if fewer than
`S3_MULTIPART_UPLOAD_CHUNK_SIZE` bytes were read, take the single-shot path
with that chunk as the whole body, otherwise the multipart path. -/
def doUpload (content : List Nat) : S3UploadCall :=
  let chunk := content.take s3MultipartUploadChunkSize
  if chunk.length < s3MultipartUploadChunkSize then
    S3UploadCall.putObject chunk
  else
    S3UploadCall.multipartUpload chunk

/-- Claim C6 (amended): the single-shot path is taken exactly for files of
size strictly less than 8 MiB (and then the `PutObject` body is the whole
file); every file of size ≥ 8 MiB — including one of exactly 8 MiB — takes
the multipart path. -/
theorem c6_upload_path_theorem (content : List Nat) :
    doUpload content =
      if content.length < s3MultipartUploadChunkSize then
        S3UploadCall.putObject content
      else
        S3UploadCall.multipartUpload (content.take s3MultipartUploadChunkSize) := by
  unfold doUpload
  by_cases h : content.length < s3MultipartUploadChunkSize
  · rw [if_pos h, List.take_of_length_le (Nat.le_of_lt h),
      if_pos h]
  · have hle : s3MultipartUploadChunkSize ≤ content.length := Nat.le_of_not_lt h
    rw [if_neg h]
    rw [if_neg (by simp [List.length_take]; omega)]

/-- Claim C6, counterexample to the claim as stated: a file of size exactly
8 MiB takes the multipart path, not the claimed single-shot path. -/
theorem c6_upload_path_counterexample :
    doUpload (List.replicate s3MultipartUploadChunkSize 0)
      = S3UploadCall.multipartUpload (List.replicate s3MultipartUploadChunkSize 0) := by
  unfold doUpload
  simp [List.take_replicate]

/-! ## C5 / C9 — the S3 ETag calculator
Embedded from `extensions/aws-s3-upload-file/src/etag_calculator.rs`
(`EtagCalculator::file`).  The file content is a list of bytes; each
`file.take(chunk_size).read_to_end(&mut chunk)` reads the next
`min(chunk_size, remaining)` bytes.  The external MD5 digest is a parameter
`md5`; `hex::encode` and the `{:x}` byte formatting (both lowercase hex,
two digits per byte) are embedded as `hexEncode`. -/

def hexDigit (n : Nat) : Char :=
  if n < 10 then Char.ofNat (48 + n) else Char.ofNat (97 + (n - 10))

def hexByte (b : Nat) : String :=
  String.mk [hexDigit (b / 16 % 16), hexDigit (b % 16)]

def hexEncode (bs : List Nat) : String :=
  String.join (bs.map hexByte)

/-- The mutable locals of `EtagCalculator::file`: `chunk_count`, `total_size`
and the running `concat_md5` buffer. -/
structure EtagAcc where
  chunkCount : Nat
  totalSize : Nat
  concatMd5 : List Nat
deriving DecidableEq

/-- The read loop of `EtagCalculator::file`: read a chunk; add its size to
`total_size`; stop on a zero-byte read; append the chunk's MD5 digest to
`concat_md5`; stop on a short read; fail if `chunk_count` exceeded
`max_chunks` after a full read; otherwise continue with the remainder. -/
def etagLoop (md5 : List Nat → List Nat) (c m : Nat) (rest : List Nat) (acc : EtagAcc) :
    Except String EtagAcc :=
  if h0 : (rest.take c).length = 0 then
    Except.ok { acc with totalSize := acc.totalSize + (rest.take c).length }
  else
    let acc2 : EtagAcc :=
      { acc with totalSize := acc.totalSize + (rest.take c).length,
                 chunkCount := acc.chunkCount + 1,
                 concatMd5 := acc.concatMd5 ++ md5 (rest.take c) }
    if h1 : (rest.take c).length < c then Except.ok acc2
    else if m < acc2.chunkCount then Except.error "file is too large"
    else etagLoop md5 c m (rest.drop c) acc2
termination_by rest.length
decreasing_by
  have hh : (List.take c rest).length = min c rest.length := List.length_take _ _
  simp only [List.length_drop]
  omega

/-- `EtagCalculator::file`: run the read loop from a fresh accumulator, then
substitute `md5("")` for an empty `concat_md5` (the empty-file case), and
format the result: a quoted lowercase-hex digest, with `md5(concat_md5)` and
a `-<chunk_count>` suffix when at least one full chunk's worth of bytes was
read (`total_size >= chunk_size`). -/
def etagFile (md5 : List Nat → List Nat) (c m : Nat) (content : List Nat) :
    Except String String :=
  match etagLoop md5 c m content { chunkCount := 0, totalSize := 0, concatMd5 := [] } with
  | Except.error e => Except.error e
  | Except.ok acc =>
    let concatMd5 := if acc.concatMd5.isEmpty then md5 [] else acc.concatMd5
    if c ≤ acc.totalSize then
      Except.ok ("\"" ++ hexEncode (md5 concatMd5) ++ "-" ++ toString acc.chunkCount ++ "\"")
    else
      Except.ok ("\"" ++ hexEncode concatMd5 ++ "\"")

/-- The chunking of a byte list into successive `c`-byte chunks (the last one
possibly shorter), written after the specification's words "Stream the file
in fixed C-sized chunks"; the theorems below relate `etagFile` to it. -/
def specChunks (c : Nat) (l : List Nat) : List (List Nat) :=
  if h : l = [] ∨ c = 0 then [] else l.take c :: specChunks c (l.drop c)
termination_by l.length
decreasing_by
  push_neg at h
  have h1 : 0 < l.length := List.length_pos.mpr h.1
  simp only [List.length_drop]
  omega

theorem specChunks_nil (c : Nat) : specChunks c [] = [] := by
  rw [specChunks]
  simp

theorem specChunks_cons (c : Nat) (l : List Nat) (hl : l ≠ []) (hc : c ≠ 0) :
    specChunks c l = l.take c :: specChunks c (l.drop c) := by
  rw [specChunks]
  simp [hl, hc]

theorem specChunks_small (c : Nat) (l : List Nat) (hl : l ≠ []) (hc : c ≠ 0)
    (h : l.length ≤ c) : specChunks c l = [l] := by
  rw [specChunks_cons c l hl hc, List.take_of_length_le h, List.drop_eq_nil_of_le h,
    specChunks_nil]

/-- Chunk count of a file of `k` full chunks plus a final chunk of
`r` bytes, `0 < r ≤ c`. -/
theorem specChunks_length_of (c r : Nat) (hc : 0 < c) (hr : 0 < r) (hrc : r ≤ c) :
    ∀ (k : Nat) (l : List Nat), l.length = k * c + r → (specChunks c l).length = k + 1 := by
  intro k
  induction k with
  | zero =>
    intro l hl
    simp at hl
    have hne : l ≠ [] := by
      intro h
      subst h
      simp at hl
      omega
    rw [specChunks_small c l hne (by omega) (by omega)]
    rfl
  | succ k ih =>
    intro l hl
    have hne : l ≠ [] := by
      intro h
      subst h
      simp at hl
      omega
    rw [specChunks_cons c l hne (by omega)]
    have hdrop : (l.drop c).length = k * c + r := by
      simp only [List.length_drop, hl]
      have : c ≤ (k + 1) * c := by
        calc c = 1 * c := by ring
          _ ≤ (k + 1) * c := Nat.mul_le_mul_right _ (by omega)
      rw [Nat.succ_mul] at hl ⊢
      omega
    rw [List.length_cons, ih (l.drop c) hdrop]

/-- Characterisation of the read loop: starting with `chunk_count ≤ m`, it
fails with the size error exactly when the remaining input still holds
`m - chunk_count + 1` full chunks, and otherwise returns the accumulator
extended with every chunk of the remaining input. -/
theorem etagLoop_spec (md5 : List Nat → List Nat) (c m : Nat) (hc : 0 < c) :
    ∀ (n : Nat) (rest : List Nat), rest.length = n → ∀ (acc : EtagAcc), acc.chunkCount ≤ m →
    etagLoop md5 c m rest acc =
      if (m - acc.chunkCount + 1) * c ≤ rest.length then Except.error "file is too large"
      else Except.ok { chunkCount := acc.chunkCount + (specChunks c rest).length,
                       totalSize := acc.totalSize + rest.length,
                       concatMd5 := acc.concatMd5 ++ (List.map md5 (specChunks c rest)).join } := by
  intro n
  induction n using Nat.strong_induction_on with
  | _ n ih =>
    intro rest hlen acc hcc
    have htake : (rest.take c).length = min c rest.length := List.length_take _ _
    rw [etagLoop]
    by_cases h0 : (rest.take c).length = 0
    · rw [dif_pos h0]
      have hrest : rest = [] := by
        rw [htake] at h0
        have : rest.length = 0 := by omega
        exact List.length_eq_zero.mp this
      subst hrest
      have hpos : 0 < (m - acc.chunkCount + 1) * c := Nat.mul_pos (by omega) hc
      rw [if_neg (by simp; omega)]
      simp [specChunks_nil]
    · rw [dif_neg h0]
      have hrestne : rest ≠ [] := by
        intro h
        subst h
        simp at h0
      by_cases h1 : (rest.take c).length < c
      · rw [dif_pos h1]
        have hlt : rest.length < c := by omega
        have hcond : ¬ ((m - acc.chunkCount + 1) * c ≤ rest.length) := by
          have : c ≤ (m - acc.chunkCount + 1) * c := by
            calc c = 1 * c := by ring
              _ ≤ (m - acc.chunkCount + 1) * c := Nat.mul_le_mul_right _ (by omega)
          omega
        rw [if_neg hcond]
        rw [specChunks_small c rest hrestne (by omega) (by omega),
          List.take_of_length_le (by omega)]
        simp
      · rw [dif_neg h1]
        have hfull : (rest.take c).length = c := by omega
        have hclen : c ≤ rest.length := by omega
        by_cases h2 : m < acc.chunkCount + 1
        · rw [if_pos h2]
          have hcceq : acc.chunkCount = m := by omega
          rw [if_pos (by rw [hcceq]; simpa using hclen)]
        · rw [if_neg h2]
          have hdlen : (rest.drop c).length = rest.length - c := List.length_drop _ _
          have hdlt : rest.length - c < n := by omega
          rw [ih (rest.length - c) (by omega) (rest.drop c) hdlen _ (by simp; omega)]
          dsimp only
          rw [hdlen, specChunks_cons c rest hrestne (by omega)]
          have hcondiff : ((m - (acc.chunkCount + 1) + 1) * c ≤ rest.length - c)
              ↔ ((m - acc.chunkCount + 1) * c ≤ rest.length) := by
            have e1 : m - (acc.chunkCount + 1) + 1 = m - acc.chunkCount := by omega
            rw [e1]
            have e2 : (m - acc.chunkCount + 1) * c = (m - acc.chunkCount) * c + c := by
              rw [Nat.add_mul]
              ring
            rw [e2]
            omega
          by_cases h3 : (m - acc.chunkCount + 1) * c ≤ rest.length
          · rw [if_pos (hcondiff.mpr h3), if_pos h3]
          · rw [if_neg (fun hx => h3 (hcondiff.mp hx)), if_neg h3]
            simp only [Except.ok.injEq, EtagAcc.mk.injEq, List.length_cons, List.map_cons,
              List.join_cons, List.append_assoc]
            refine ⟨by omega, ?_, ?_⟩
            · rw [hfull]
              omega
            · trivial

/-- Claim C5 (confirmed): with the 8 MiB chunk size, for every file small
enough not to hit the size limit, `EtagCalculator::file` returns the
double-quoted lowercase-hex MD5 of the whole content when the size is
strictly below 8 MiB (including the empty file, which yields the quoted
hex MD5 of the empty byte string), and otherwise the double-quoted
lowercase-hex MD5 of the concatenated per-chunk digests followed by a
hyphen and the chunk count. -/
theorem c5_etag_format_theorem (md5 : List Nat → List Nat)
    (hmd5 : ∀ bs, (md5 bs).length = 16) (content : List Nat)
    (hsize : content.length
      < (s3MultipartUploadMaxChunks + 1) * s3MultipartUploadChunkSize) :
    etagFile md5 s3MultipartUploadChunkSize s3MultipartUploadMaxChunks content =
      if content.length < s3MultipartUploadChunkSize then
        Except.ok ("\"" ++ hexEncode (md5 content) ++ "\"")
      else
        Except.ok ("\"" ++
          hexEncode (md5 ((List.map md5
            (specChunks s3MultipartUploadChunkSize content)).join)) ++
          "-" ++ toString (specChunks s3MultipartUploadChunkSize content).length
          ++ "\"") := by
  have hc : 0 < s3MultipartUploadChunkSize := by norm_num [s3MultipartUploadChunkSize]
  unfold etagFile
  rw [etagLoop_spec md5 _ _ hc content.length content rfl _ (by simp)]
  rw [if_neg (by dsimp only; simp only [Nat.sub_zero]; omega)]
  by_cases hnil : content = []
  · subst hnil
    simp [specChunks_nil, hc, hc.ne']
  · by_cases hlen : content.length < s3MultipartUploadChunkSize
    · rw [if_pos hlen]
      rw [specChunks_small _ content hnil (by omega) (by omega)]
      have hne : md5 content ≠ [] := by
        intro h
        have := hmd5 content
        rw [h] at this
        simp at this
      simp [List.isEmpty_iff, hne, hlen, Nat.not_le.mpr hlen]
    · rw [if_neg hlen]
      have hclen : s3MultipartUploadChunkSize ≤ content.length := by omega
      rw [specChunks_cons _ content hnil (by omega)]
      have hne : md5 (content.take s3MultipartUploadChunkSize) ≠ [] := by
        intro h
        have := hmd5 (content.take s3MultipartUploadChunkSize)
        rw [h] at this
        simp at this
      simp only [List.map_cons, List.join_cons]
      have hjoin : md5 (content.take s3MultipartUploadChunkSize) ++
          (List.map md5 (specChunks s3MultipartUploadChunkSize
            (content.drop s3MultipartUploadChunkSize))).join ≠ [] := by
        intro h
        exact hne (List.append_eq_nil.mp h).1
      simp [List.isEmpty_iff, hjoin, hclen]

/-- Claim C5 witness: the theorem applied to a concrete 3-byte file with a
concrete 16-byte digest function. -/
theorem c5_etag_format_witness :
    etagFile (fun _ => List.replicate 16 0) s3MultipartUploadChunkSize
        s3MultipartUploadMaxChunks [1, 2, 3] =
      Except.ok ("\"" ++ hexEncode (List.replicate 16 0) ++ "\"") := by
  have h := c5_etag_format_theorem (fun _ => List.replicate 16 0)
    (fun _ => by simp) [1, 2, 3] (by norm_num [s3MultipartUploadMaxChunks,
      s3MultipartUploadChunkSize])
  rw [h]
  rw [if_pos (by norm_num [s3MultipartUploadChunkSize])]

/-- Claim C9 (amended): with the 8 MiB chunk size and `max_chunks = 10000`,
`EtagCalculator::file` fails with the size error exactly when the file holds
at least `max_chunks + 1` *full* chunks (size ≥ 10001 × 8 MiB).  A file
whose chunk count exceeds 10000 only because of a trailing partial chunk is
not rejected: the loop breaks on the short read before the size check. -/
theorem c9_etag_size_limit_theorem (md5 : List Nat → List Nat) (content : List Nat) :
    etagFile md5 s3MultipartUploadChunkSize s3MultipartUploadMaxChunks content
        = Except.error "file is too large"
      ↔ (s3MultipartUploadMaxChunks + 1) * s3MultipartUploadChunkSize
          ≤ content.length := by
  have hc : 0 < s3MultipartUploadChunkSize := by norm_num [s3MultipartUploadChunkSize]
  unfold etagFile
  rw [etagLoop_spec md5 _ _ hc content.length content rfl _ (by simp)]
  by_cases h : (s3MultipartUploadMaxChunks + 1) * s3MultipartUploadChunkSize
      ≤ content.length
  · rw [if_pos (by dsimp only; simp only [Nat.sub_zero]; omega)]
    simp [h]
  · rw [if_neg (by dsimp only; simp only [Nat.sub_zero]; omega)]
    simp only [h, iff_false]
    split <;> intro hx <;> exact Except.noConfusion hx

theorem etagFile_isOk_iff (md5 : List Nat → List Nat) (c m : Nat) (content : List Nat) :
    (etagFile md5 c m content).isOk = true
      ↔ ∃ acc, etagLoop md5 c m content
          { chunkCount := 0, totalSize := 0, concatMd5 := [] } = Except.ok acc := by
  unfold etagFile
  cases h : etagLoop md5 c m content { chunkCount := 0, totalSize := 0, concatMd5 := [] } with
  | error e =>
    dsimp only
    constructor
    · intro hx
      exact Bool.noConfusion hx
    · rintro ⟨acc, hacc⟩
      exact Except.noConfusion hacc
  | ok acc =>
    constructor
    · intro _
      exact ⟨acc, rfl⟩
    · intro _
      dsimp only
      split <;> rfl

/-- A file of 10000 full 8 MiB chunks plus one extra byte: its chunk count
is 10001, exceeding `max_chunks`. -/
def tooManyChunksFile : List Nat :=
  List.replicate (s3MultipartUploadMaxChunks * s3MultipartUploadChunkSize + 1) 0

/-- Claim C9, counterexample to the claim as stated: this file needs 10001
chunks (more than `max_chunks = 10000`), its last chunk being partial, yet
`EtagCalculator::file` succeeds instead of failing with a size error. -/
theorem c9_etag_size_limit_counterexample :
    (specChunks s3MultipartUploadChunkSize tooManyChunksFile).length
        = s3MultipartUploadMaxChunks + 1
      ∧ (etagFile (fun _ => List.replicate 16 0) s3MultipartUploadChunkSize
          s3MultipartUploadMaxChunks tooManyChunksFile).isOk = true := by
  have hc : 0 < s3MultipartUploadChunkSize := by norm_num [s3MultipartUploadChunkSize]
  have hlen : tooManyChunksFile.length
      = s3MultipartUploadMaxChunks * s3MultipartUploadChunkSize + 1 := by
    simp [tooManyChunksFile]
  constructor
  · exact specChunks_length_of _ 1 hc (by norm_num) (by omega) _ _ hlen
  · rw [etagFile_isOk_iff]
    rw [etagLoop_spec _ _ _ hc tooManyChunksFile.length tooManyChunksFile rfl _ (by simp)]
    rw [if_neg (by
      dsimp only
      simp only [Nat.sub_zero]
      rw [hlen]
      norm_num [s3MultipartUploadChunkSize, s3MultipartUploadMaxChunks])]
    exact ⟨_, rfl⟩

/-! ## C2 — Checkpointer
Embedded from `src/common/checkpointer.rs`.  Timestamps (`DateTime<Utc>`,
`SystemTime`) are `Nat`; `Duration` is a `Nat` in the same unit.  The two
checkpoint files are modelled as a `CheckpointDisk` holding the decoded
`State` values (serde round-trips a well-formed state identically, and this
development treats file I/O as succeeding; the crash cases of the atomicity
contract are not modelled here).  `write_checkpoints` writes the tmp file
and immediately renames it onto the stable file, so its net disk effect is
`tmpFile := none, stableFile := some state`. -/

structure UploadKey where
  filename : String
  bucket : String
  objectKey : String
deriving DecidableEq

/-- One entry of the persisted `State::V1` checkpoint list. -/
structure Checkpoint where
  uploadKey : UploadKey
  uploadAt : Nat
  expireAt : Nat
deriving DecidableEq

/-- `CheckPointsView`: the two parallel maps.  (`HashMap` is modelled as an
association list; iteration order is irrelevant to every claim proved.) -/
structure CheckPointsView where
  uploadTimes : List (UploadKey × Nat)
  expireTimes : List (UploadKey × Nat)
deriving DecidableEq

def CheckPointsView.empty : CheckPointsView :=
  { uploadTimes := [], expireTimes := [] }

/-- `CheckPointsView::contains`: true iff the stored `upload_at` for the key
is ≥ `upload_time_after`; absent key gives `false` (`unwrap_or_default`). -/
def CheckPointsView.containsV (v : CheckPointsView) (key : UploadKey)
    (uploadTimeAfter : Nat) : Bool :=
  match lookupA key v.uploadTimes with
  | some time => uploadTimeAfter ≤ time
  | none => false

/-- `CheckPointsView::update`: insert/overwrite both timestamps. -/
def CheckPointsView.updateV (v : CheckPointsView) (key : UploadKey)
    (uploadAt expireAt : Nat) : CheckPointsView :=
  { uploadTimes := setA key uploadAt v.uploadTimes,
    expireTimes := setA key expireAt v.expireTimes }

/-- `CheckPointsView::remove_expired`: collect the keys whose `expire_time`
is `< now`, then remove them from both maps. -/
def CheckPointsView.removeExpired (v : CheckPointsView) (now : Nat) : CheckPointsView :=
  let expired := (v.expireTimes.filter (fun p => decide (p.2 < now))).map Prod.fst
  { uploadTimes := v.uploadTimes.filter (fun p => decide (p.1 ∉ expired)),
    expireTimes := v.expireTimes.filter (fun p => decide (p.1 ∉ expired)) }

/-- `CheckPointsView::get_state`: one `Checkpoint` per `expire_times` entry,
with `upload_at` looked up in `upload_times` (falling back to `Utc::now()`,
the `now` parameter here, when absent). -/
def CheckPointsView.getState (v : CheckPointsView) (now : Nat) : List Checkpoint :=
  v.expireTimes.map fun p =>
    { uploadKey := p.1, expireAt := p.2,
      uploadAt := (lookupA p.1 v.uploadTimes).getD now }

/-- `CheckPointsView::set_state`: insert every persisted checkpoint into both
maps. -/
def CheckPointsView.setState (v : CheckPointsView) (state : List Checkpoint) :
    CheckPointsView :=
  state.foldl
    (fun acc cp =>
      { uploadTimes := setA cp.uploadKey cp.uploadAt acc.uploadTimes,
        expireTimes := setA cp.uploadKey cp.expireAt acc.expireTimes })
    v

/-- The two on-disk files (decoded): `checkpoints.new.json` and
`checkpoints.json`. -/
structure CheckpointDisk where
  tmpFile : Option (List Checkpoint)
  stableFile : Option (List Checkpoint)
deriving DecidableEq

structure Checkpointer where
  checkpoints : CheckPointsView
  last : List Checkpoint
deriving DecidableEq

/-- `Checkpointer::new`: empty state, does not touch disk. -/
def Checkpointer.new : Checkpointer :=
  { checkpoints := CheckPointsView.empty, last := [] }

def Checkpointer.contains (cp : Checkpointer) (key : UploadKey)
    (uploadTimeAfter : Nat) : Bool :=
  cp.checkpoints.containsV key uploadTimeAfter

/-- `Checkpointer::update`: `expire_at = upload_time + expire_after`. -/
def Checkpointer.update (cp : Checkpointer) (key : UploadKey)
    (uploadTime expireAfter : Nat) : Checkpointer :=
  { cp with checkpoints :=
      cp.checkpoints.updateV key uploadTime (uploadTime + expireAfter) }

/-- `Checkpointer::write_checkpoints` at wall-clock `now`: prune expired
entries, no-op when the state equals the last written one, otherwise write
the tmp file and rename it onto the stable file; returns the post-prune
count. -/
def Checkpointer.writeCheckpoints (cp : Checkpointer) (disk : CheckpointDisk)
    (now : Nat) : Checkpointer × CheckpointDisk × Nat :=
  let view := cp.checkpoints.removeExpired now
  let state := view.getState now
  if state = cp.last then
    ({ cp with checkpoints := view }, disk, view.uploadTimes.length)
  else
    ({ checkpoints := view, last := state },
     { tmpFile := none, stableFile := some state },
     view.uploadTimes.length)

/-- `Checkpointer::read_checkpoints`: prefer the tmp file (and promote it to
stable), else the stable file, else keep the empty state. -/
def Checkpointer.readCheckpoints (cp : Checkpointer) (disk : CheckpointDisk) :
    Checkpointer × CheckpointDisk :=
  match disk.tmpFile with
  | some state =>
    ({ checkpoints := cp.checkpoints.setState state, last := state },
     { tmpFile := none, stableFile := some state })
  | none =>
    match disk.stableFile with
    | some state =>
      ({ checkpoints := cp.checkpoints.setState state, last := state }, disk)
    | none => (cp, disk)

/-- The last `update(k, t, d)` call for a key wins. -/
def lastUpdate (updates : List (UploadKey × Nat × Nat)) (k : UploadKey) :
    Option (Nat × Nat) :=
  match updates with
  | [] => none
  | u :: rest =>
    match lastUpdate rest k with
    | some td => some td
    | none => if u.1 = k then some u.2 else none

def applyUpdates (cp : Checkpointer) (updates : List (UploadKey × Nat × Nat)) :
    Checkpointer :=
  updates.foldl (fun c u => c.update u.1 u.2.1 u.2.2) cp

theorem lookupA_eq_find? {ν : Type} [DecidableEq κ] (k : κ) (m : List (κ × ν)) :
    lookupA k m = (m.find? (fun p => decide (p.1 = k))).map Prod.snd := by
  induction m with
  | nil => simp [lookupA]
  | cons p rest ih =>
    obtain ⟨k', v⟩ := p
    by_cases h : k' = k <;> simp [lookupA, List.find?, h, ih]

theorem lookupA_filter_key {ν : Type} [DecidableEq κ] (p : κ → Bool)
    (m : List (κ × ν)) (k : κ) :
    lookupA k (m.filter (fun q => p q.1)) = if p k then lookupA k m else none := by
  induction m with
  | nil => simp [lookupA]
  | cons q rest ih =>
    obtain ⟨k', v⟩ := q
    by_cases h : k' = k
    · subst h
      by_cases hp : p k' <;> simp [List.filter, hp, lookupA, ih]
    · by_cases hp : p k' <;> simp [List.filter, hp, lookupA, h, ih]

theorem keysA_setA {ν : Type} [DecidableEq κ] (k : κ) (v : ν) (m : List (κ × ν)) :
    keysA (setA k v m) = if k ∈ keysA m then keysA m else keysA m ++ [k] := by
  induction m with
  | nil => simp [setA, keysA]
  | cons p rest ih =>
    obtain ⟨k', v'⟩ := p
    by_cases h : k' = k
    · subst h; simp [setA, keysA]
    · have h' : k ≠ k' := Ne.symm h
      by_cases hm : k ∈ keysA rest
      · simp only [setA, if_neg h, keysA, List.map_cons] at ih ⊢
        rw [ih]
        simp [keysA] at hm
        simp [hm, h']
      · simp only [setA, if_neg h, keysA, List.map_cons] at ih ⊢
        rw [ih]
        simp [keysA] at hm
        simp [hm, h']

theorem nodup_keysA_setA {ν : Type} [DecidableEq κ] (k : κ) (v : ν)
    (m : List (κ × ν)) (h : (keysA m).Nodup) : (keysA (setA k v m)).Nodup := by
  rw [keysA_setA]
  by_cases hm : k ∈ keysA m
  · simpa [hm]
  · simpa [hm, List.nodup_append] using h

theorem keysA_filter {ν : Type} (p : κ × ν → Bool) (m : List (κ × ν)) :
    List.Sublist (keysA (m.filter p)) (keysA m) :=
  (List.filter_sublist m).map Prod.fst

/-- Key sets of the two maps after a sequence of updates from the empty
state are duplicate-free. -/
theorem applyUpdates_nodup (updates : List (UploadKey × Nat × Nat)) :
    ∀ cp : Checkpointer,
      (keysA cp.checkpoints.uploadTimes).Nodup →
      (keysA cp.checkpoints.expireTimes).Nodup →
      (keysA (applyUpdates cp updates).checkpoints.uploadTimes).Nodup
        ∧ (keysA (applyUpdates cp updates).checkpoints.expireTimes).Nodup := by
  induction updates with
  | nil => intro cp h1 h2; exact ⟨h1, h2⟩
  | cons u rest ih =>
    intro cp h1 h2
    exact ih _ (nodup_keysA_setA _ _ _ h1) (nodup_keysA_setA _ _ _ h2)

/-- Lookup after a sequence of updates is governed by the last update. -/
theorem lookupA_applyUpdates (updates : List (UploadKey × Nat × Nat)) :
    ∀ (cp : Checkpointer) (k : UploadKey),
      lookupA k (applyUpdates cp updates).checkpoints.uploadTimes
          = (match lastUpdate updates k with
             | some td => some td.1
             | none => lookupA k cp.checkpoints.uploadTimes)
        ∧ lookupA k (applyUpdates cp updates).checkpoints.expireTimes
          = (match lastUpdate updates k with
             | some td => some (td.1 + td.2)
             | none => lookupA k cp.checkpoints.expireTimes) := by
  induction updates with
  | nil => intro cp k; exact ⟨rfl, rfl⟩
  | cons u rest ih =>
    intro cp k
    have h := ih (cp.update u.1 u.2.1 u.2.2) k
    rw [show applyUpdates cp (u :: rest) = applyUpdates (cp.update u.1 u.2.1 u.2.2) rest
      from rfl]
    rcases hlast : lastUpdate rest k with _ | td
    · rw [hlast] at h
      by_cases hk : u.1 = k
      · subst hk
        simp only [lastUpdate, hlast, if_pos rfl]
        rw [h.1, h.2]
        constructor
        · exact lookupA_setA_self _ _ _
        · exact lookupA_setA_self _ _ _
      · simp only [lastUpdate, hlast, if_neg hk]
        rw [h.1, h.2]
        constructor
        · exact lookupA_setA_ne _ _ _ _ (Ne.symm hk)
        · exact lookupA_setA_ne _ _ _ _ (Ne.symm hk)
    · rw [hlast] at h
      simp only [lastUpdate, hlast]
      exact h

/-- With duplicate-free keys, membership in the expired-key list of
`remove_expired` is equivalent to an expired lookup. -/
theorem mem_expired_iff (now : Nat) (m : List (UploadKey × Nat)) (k : UploadKey)
    (hnd : (keysA m).Nodup) :
    k ∈ (m.filter (fun p => decide (p.2 < now))).map Prod.fst
      ↔ ∃ e, lookupA k m = some e ∧ e < now := by
  induction m with
  | nil => simp [lookupA]
  | cons p rest ih =>
    obtain ⟨k', e'⟩ := p
    simp only [keysA, List.map_cons, List.nodup_cons] at hnd
    by_cases hk : k' = k
    · subst hk
      have hnotin : ∀ x ∈ rest.filter (fun p => decide (p.2 < now)), x.1 ≠ k' := by
        intro x hx hxk
        apply hnd.1
        have := List.mem_of_mem_filter hx
        rw [← hxk]
        exact List.mem_map_of_mem Prod.fst this
      by_cases he : e' < now
      · simp [List.filter, he, lookupA]
      · have hde : decide (e' < now) = false := by simpa using he
        simp only [List.filter, hde]
        simp only [lookupA, if_pos rfl]
        constructor
        · intro hmem
          rcases List.mem_map.mp hmem with ⟨x, hx, hxk⟩
          exact absurd hxk (hnotin x hx)
        · rintro ⟨e, he1, he2⟩
          cases he1
          exact absurd he2 he
    · by_cases he : e' < now <;>
        simp [List.filter, he, lookupA, hk, Ne.symm hk, ih hnd.2]

/-- Lookup through `set_state` of a duplicate-free persisted state. -/
theorem lookupA_setState (s : List Checkpoint)
    (hnd : (s.map Checkpoint.uploadKey).Nodup) :
    ∀ (w : CheckPointsView) (k : UploadKey),
      lookupA k (w.setState s).uploadTimes
          = (match s.find? (fun cp => decide (cp.uploadKey = k)) with
             | some cp => some cp.uploadAt
             | none => lookupA k w.uploadTimes) := by
  induction s with
  | nil => intro w k; rfl
  | cons cp0 rest ih =>
    intro w k
    simp only [List.map_cons, List.nodup_cons] at hnd
    rw [show CheckPointsView.setState w (cp0 :: rest)
        = CheckPointsView.setState
            { uploadTimes := setA cp0.uploadKey cp0.uploadAt w.uploadTimes,
              expireTimes := setA cp0.uploadKey cp0.expireAt w.expireTimes } rest
      from rfl]
    by_cases hk : cp0.uploadKey = k
    · subst hk
      have hfind : rest.find? (fun cp => decide (cp.uploadKey = cp0.uploadKey)) = none := by
        rw [List.find?_eq_none]
        intro x hx
        simp only [decide_eq_true_eq]
        intro hxk
        exact hnd.1 (hxk ▸ List.mem_map_of_mem Checkpoint.uploadKey hx)
      have hdec : (decide (cp0.uploadKey = cp0.uploadKey)) = true := by simp
      rw [ih hnd.2 _, hfind]
      simp only [List.find?, hdec]
      exact lookupA_setA_self _ _ _
    · have hdec : (decide (cp0.uploadKey = k)) = false := by simpa using hk
      rw [ih hnd.2 _]
      simp only [List.find?, hdec]
      rcases hfind : rest.find? (fun cp => decide (cp.uploadKey = k)) with _ | cp1 <;>
          simp only [hfind]
      exact lookupA_setA_ne _ _ _ _ (Ne.symm hk)

theorem applyUpdates_last (updates : List (UploadKey × Nat × Nat)) :
    ∀ cp : Checkpointer, (applyUpdates cp updates).last = cp.last := by
  induction updates with
  | nil => intro cp; rfl
  | cons u rest ih => intro cp; exact ih _

/-- Claim C2 (confirmed): after any sequence of `update(k_i, t_i, d_i)` calls
followed by `write_checkpoints` at time `now`, a fresh Checkpointer on the
same data directory that runs `read_checkpoints` answers
`contains(k, t1) = true` for every `t1 ≤ t` and `contains(k, t2) = false`
for every `t2 > t`, where `(t, d)` is the last update written for `k` and
the entry's expiry `t + d` has not passed at `now`. -/
theorem c2_checkpoint_roundtrip_theorem
    (updates : List (UploadKey × Nat × Nat)) (now : Nat) (k : UploadKey)
    (t d t1 t2 : Nat)
    (hlast : lastUpdate updates k = some (t, d))
    (hexp : now ≤ t + d) (h1 : t1 ≤ t) (h2 : t < t2) :
    (Checkpointer.new.readCheckpoints
        ((applyUpdates Checkpointer.new updates).writeCheckpoints
          { tmpFile := none, stableFile := none } now).2.1).1.contains k t1 = true
      ∧ (Checkpointer.new.readCheckpoints
        ((applyUpdates Checkpointer.new updates).writeCheckpoints
          { tmpFile := none, stableFile := none } now).2.1).1.contains k t2 = false := by
  have hV := lookupA_applyUpdates updates Checkpointer.new k
  rw [hlast] at hV
  have hup : lookupA k (applyUpdates Checkpointer.new updates).checkpoints.uploadTimes
      = some t := hV.1
  have hex : lookupA k (applyUpdates Checkpointer.new updates).checkpoints.expireTimes
      = some (t + d) := hV.2
  have hnd := applyUpdates_nodup updates Checkpointer.new (by simp [Checkpointer.new,
    CheckPointsView.empty, keysA]) (by simp [Checkpointer.new, CheckPointsView.empty, keysA])
  -- the pruned view keeps the entry for k
  set V := (applyUpdates Checkpointer.new updates).checkpoints with hVdef
  have hkexp : k ∉ (V.expireTimes.filter (fun p => decide (p.2 < now))).map Prod.fst := by
    rw [mem_expired_iff now V.expireTimes k hnd.2]
    rintro ⟨e, he1, he2⟩
    rw [hex] at he1
    cases he1
    omega
  have hpup : lookupA k (V.removeExpired now).uploadTimes = some t := by
    unfold CheckPointsView.removeExpired
    rw [lookupA_filter_key (fun key =>
      decide (key ∉ (V.expireTimes.filter (fun p => decide (p.2 < now))).map Prod.fst))
      V.uploadTimes k]
    rw [if_pos (by simpa using hkexp)]
    exact hup
  have hpex : lookupA k (V.removeExpired now).expireTimes = some (t + d) := by
    unfold CheckPointsView.removeExpired
    rw [lookupA_filter_key (fun key =>
      decide (key ∉ (V.expireTimes.filter (fun p => decide (p.2 < now))).map Prod.fst))
      V.expireTimes k]
    rw [if_pos (by simpa using hkexp)]
    exact hex
  -- the persisted state holds the checkpoint (k, t, t + d)
  set P := V.removeExpired now with hPdef
  have hPnd : (keysA P.expireTimes).Nodup := by
    have hsub : List.Sublist (keysA P.expireTimes) (keysA V.expireTimes) := by
      unfold_let P
      unfold CheckPointsView.removeExpired
      exact keysA_filter _ _
    exact hsub.nodup hnd.2
  have hstatekeys : (P.getState now).map Checkpoint.uploadKey = keysA P.expireTimes := by
    unfold CheckPointsView.getState keysA
    rw [List.map_map]
    rfl
  have hstatend : ((P.getState now).map Checkpoint.uploadKey).Nodup := by
    rw [hstatekeys]; exact hPnd
  have hstatefind : (P.getState now).find? (fun cp => decide (cp.uploadKey = k))
      = some { uploadKey := k, expireAt := t + d,
               uploadAt := (lookupA k P.uploadTimes).getD now } := by
    unfold CheckPointsView.getState
    rw [List.find?_map]
    have hlook : lookupA k P.expireTimes = some (t + d) := hpex
    rw [lookupA_eq_find?] at hlook
    rcases hfind : P.expireTimes.find? (fun p => decide (p.1 = k)) with _ | q
    · rw [hfind] at hlook
      exact absurd hlook (by simp)
    · rw [hfind] at hlook
      have hq2 : q.2 = t + d := by simpa using hlook
      have hq1 : q.1 = k := by
        have := List.find?_some hfind
        simpa using this
      have : (fun cp => decide (cp.uploadKey = k)) ∘
          (fun p : UploadKey × Nat =>
            ({ uploadKey := p.1, expireAt := p.2,
               uploadAt := (lookupA p.1 P.uploadTimes).getD now } : Checkpoint))
          = fun p : UploadKey × Nat => decide (p.1 = k) := by
        funext p
        rfl
      rw [this, hfind]
      simp [hq1, hq2]
  have hstate_ne : P.getState now ≠ [] := by
    intro hnil
    rw [hnil] at hstatefind
    exact absurd hstatefind (by simp [List.find?])
  -- write takes the real-write branch
  have hlastcp : (applyUpdates Checkpointer.new updates).last = [] :=
    applyUpdates_last updates Checkpointer.new
  have hwrite : ((applyUpdates Checkpointer.new updates).writeCheckpoints
      { tmpFile := none, stableFile := none } now).2.1
      = { tmpFile := none, stableFile := some (P.getState now) } := by
    unfold Checkpointer.writeCheckpoints
    rw [if_neg (by rw [hlastcp]; exact hstate_ne)]
  rw [hwrite]
  -- read loads the stable file
  have hread : (Checkpointer.new.readCheckpoints
      { tmpFile := none, stableFile := some (P.getState now) }).1
      = { checkpoints := CheckPointsView.empty.setState (P.getState now),
          last := P.getState now } := rfl
  rw [hread]
  have hfinal : lookupA k (CheckPointsView.empty.setState (P.getState now)).uploadTimes
      = some ((lookupA k P.uploadTimes).getD now) := by
    rw [lookupA_setState (P.getState now) hstatend CheckPointsView.empty k, hstatefind]
  rw [hpup] at hfinal
  simp only [Option.getD_some] at hfinal
  constructor
  · simp [Checkpointer.contains, CheckPointsView.containsV, hfinal, h1]
  · simp [Checkpointer.contains, CheckPointsView.containsV, hfinal]
    omega

def c2WitnessKey : UploadKey :=
  { filename := "a.txt", bucket := "b", objectKey := "k" }

/-- Claim C2 witness: one update `(k, 10, 5)`, written at time 12 (before the
expiry 15); the reloaded checkpointer answers `contains` positively at 10 and
negatively at 11. -/
theorem c2_checkpoint_roundtrip_witness :
    (Checkpointer.new.readCheckpoints
        ((applyUpdates Checkpointer.new [(c2WitnessKey, 10, 5)]).writeCheckpoints
          { tmpFile := none, stableFile := none } 12).2.1).1.contains c2WitnessKey 10
        = true
      ∧ (Checkpointer.new.readCheckpoints
        ((applyUpdates Checkpointer.new [(c2WitnessKey, 10, 5)]).writeCheckpoints
          { tmpFile := none, stableFile := none } 12).2.1).1.contains c2WitnessKey 11
        = false :=
  c2_checkpoint_roundtrip_theorem [(c2WitnessKey, 10, 5)] 12 c2WitnessKey 10 5 10 11
    (by decide) (by decide) (by decide) (by decide)

/-! ## C3 / C10 — the upload sink loop
Embedded from `extensions/aws-s3-upload-file/src/processor.rs`
(`S3UploadFileSink::run`).  One loop iteration is either an event intake or
a delay-queue expiry.  Every queue entry carries the same `delay_upload`, so
entries expire in insertion order: the fire step pops the queue head.  The
uploader call itself is external I/O; its outcome is the `result` parameter
(`some response` for `Ok`, `none` for `Err`), and `uploaderCalls` counts the
calls issued.  `now` is the `upload_time` captured *before* the uploader
call; the wall clock of the immediately following `write_checkpoints` is
modelled as the same instant. -/

inductive EventStatus where
  | delivered
  | rejected
deriving DecidableEq

/-- `UploadResponse { count, events_byte_size }` of the uploader; the skip
case reports `count = 0`. -/
structure UploadResponse where
  count : Nat
  eventsByteSize : Nat
deriving DecidableEq

structure SinkState where
  delayQueue : List (UploadKey × Nat)
  pendingUploads : List UploadKey
  checkpointer : Checkpointer
  disk : CheckpointDisk
  acks : List (Nat × EventStatus)
  uploaderCalls : Nat
  uploadedLogs : Nat
deriving DecidableEq

def initialSinkState : SinkState :=
  { delayQueue := [], pendingUploads := [], checkpointer := Checkpointer.new,
    disk := { tmpFile := none, stableFile := none },
    acks := [], uploaderCalls := 0, uploadedLogs := 0 }

/-- The event-intake arm: derive the `UploadKey` (`none` = missing field,
Rejected), stat the file (`none` = IO error, Rejected); enqueue and mark
pending unless the checkpoint already covers a version ≥ the modified time
or the key is already pending, in which case signal Delivered and drop.
`id` identifies the event's finalizers in `acks`. -/
def intakeStep (s : SinkState) (id : Nat) (key? : Option UploadKey)
    (mtime? : Option Nat) : SinkState :=
  match key? with
  | none => { s with acks := s.acks ++ [(id, EventStatus.rejected)] }
  | some uploadKey =>
    match mtime? with
    | none => { s with acks := s.acks ++ [(id, EventStatus.rejected)] }
    | some modifiedTime =>
      if !(s.checkpointer.contains uploadKey modifiedTime)
          && !(s.pendingUploads.contains uploadKey) then
        { s with delayQueue := s.delayQueue ++ [(uploadKey, id)],
                 pendingUploads := uploadKey :: s.pendingUploads }
      else
        { s with acks := s.acks ++ [(id, EventStatus.delivered)] }

/-- The delay-queue-expiry arm: pop the entry, remove the key from
`pending_uploads`, capture `upload_time = now`, call the uploader; on `Ok`
log "Uploaded file." only when `count > 0`, signal Delivered, and update the
checkpointer with `(key, upload_time, expire_after)`; on `Err` signal
Rejected; in both cases write the checkpoints. -/
def fireStep (expireAfter : Nat) (s : SinkState) (now : Nat)
    (result : Option UploadResponse) : SinkState :=
  match s.delayQueue with
  | [] => s
  | (uploadKey, id) :: rest =>
    let s1 : SinkState :=
      { s with delayQueue := rest,
               pendingUploads := s.pendingUploads.erase uploadKey,
               uploaderCalls := s.uploaderCalls + 1 }
    match result with
    | some response =>
      let s2 : SinkState :=
        { s1 with
          uploadedLogs := s1.uploadedLogs + (if 0 < response.count then 1 else 0),
          acks := s1.acks ++ [(id, EventStatus.delivered)],
          checkpointer := s1.checkpointer.update uploadKey now expireAfter }
      let w := s2.checkpointer.writeCheckpoints s2.disk now
      { s2 with checkpointer := w.1, disk := w.2.1 }
    | none =>
      let s2 : SinkState :=
        { s1 with acks := s1.acks ++ [(id, EventStatus.rejected)] }
      let w := s2.checkpointer.writeCheckpoints s2.disk now
      { s2 with checkpointer := w.1, disk := w.2.1 }

/-- Claim C10 (confirmed): whenever the uploader call returns success —
including the skip case `count = 0` — the fire arm still signals Delivered,
still updates the checkpointer entry to `(upload_time, upload_time +
expire_after)` with the `upload_time` captured before the call, and emits
the "Uploaded file." info log exactly when `count > 0`. -/
theorem lookupA_writeCheckpoints (cp : Checkpointer) (disk : CheckpointDisk)
    (now : Nat) (k : UploadKey) (tu te : Nat)
    (hndE : (keysA cp.checkpoints.expireTimes).Nodup)
    (hup : lookupA k cp.checkpoints.uploadTimes = some tu)
    (hex : lookupA k cp.checkpoints.expireTimes = some te)
    (hte : ¬ te < now) :
    lookupA k (cp.writeCheckpoints disk now).1.checkpoints.uploadTimes = some tu
      ∧ lookupA k (cp.writeCheckpoints disk now).1.checkpoints.expireTimes = some te := by
  have hkexp : k ∉ (cp.checkpoints.expireTimes.filter
      (fun p => decide (p.2 < now))).map Prod.fst := by
    rw [mem_expired_iff now _ k hndE]
    rintro ⟨e, he1, he2⟩
    rw [hex] at he1
    cases he1
    exact hte he2
  have hv1 : lookupA k (cp.checkpoints.removeExpired now).uploadTimes = some tu := by
    simp only [CheckPointsView.removeExpired]
    rw [lookupA_filter_key (fun key =>
      decide (key ∉ (cp.checkpoints.expireTimes.filter
        (fun p => decide (p.2 < now))).map Prod.fst)) cp.checkpoints.uploadTimes k]
    rw [if_pos (by simpa using hkexp)]
    exact hup
  have hv2 : lookupA k (cp.checkpoints.removeExpired now).expireTimes = some te := by
    simp only [CheckPointsView.removeExpired]
    rw [lookupA_filter_key (fun key =>
      decide (key ∉ (cp.checkpoints.expireTimes.filter
        (fun p => decide (p.2 < now))).map Prod.fst)) cp.checkpoints.expireTimes k]
    rw [if_pos (by simpa using hkexp)]
    exact hex
  simp only [Checkpointer.writeCheckpoints]
  by_cases hsame : (cp.checkpoints.removeExpired now).getState now = cp.last
  · rw [if_pos hsame]
    exact ⟨hv1, hv2⟩
  · rw [if_neg hsame]
    exact ⟨hv1, hv2⟩

theorem c10_success_path_theorem (expireAfter : Nat) (s : SinkState)
    (k : UploadKey) (id : Nat) (rest : List (UploadKey × Nat)) (now : Nat)
    (resp : UploadResponse) (hq : s.delayQueue = (k, id) :: rest)
    (hnd2 : (keysA s.checkpointer.checkpoints.expireTimes).Nodup) :
    (fireStep expireAfter s now (some resp)).acks
        = s.acks ++ [(id, EventStatus.delivered)]
      ∧ lookupA k (fireStep expireAfter s now
          (some resp)).checkpointer.checkpoints.uploadTimes = some now
      ∧ lookupA k (fireStep expireAfter s now
          (some resp)).checkpointer.checkpoints.expireTimes = some (now + expireAfter)
      ∧ (fireStep expireAfter s now (some resp)).uploaderCalls = s.uploaderCalls + 1
      ∧ (fireStep expireAfter s now (some resp)).uploadedLogs
          = s.uploadedLogs + (if 0 < resp.count then 1 else 0)
      ∧ (fireStep expireAfter s now (some resp)).delayQueue = rest := by
  have hw := lookupA_writeCheckpoints (s.checkpointer.update k now expireAfter)
    s.disk now k now (now + expireAfter)
    (nodup_keysA_setA _ _ _ hnd2)
    (lookupA_setA_self _ _ _) (lookupA_setA_self _ _ _) (by omega)
  unfold fireStep
  rw [hq]
  exact ⟨rfl, hw.1, hw.2, rfl, rfl, rfl⟩

def c10WitnessState : SinkState :=
  { initialSinkState with
    delayQueue := [(c2WitnessKey, 7)]
    pendingUploads := [c2WitnessKey] }

def c10WitnessResponse : UploadResponse :=
  { count := 0, eventsByteSize := 0 }

/-- Claim C10 witness: the theorem applied to a concrete one-entry queue
with a skip response (`count = 0`): Delivered, checkpoint updated, and no
"Uploaded file." log. -/
theorem c10_success_path_witness :
    (fireStep 5 c10WitnessState 20 (some c10WitnessResponse)).acks
        = c10WitnessState.acks ++ [(7, EventStatus.delivered)]
      ∧ lookupA c2WitnessKey (fireStep 5 c10WitnessState 20
          (some c10WitnessResponse)).checkpointer.checkpoints.uploadTimes = some 20
      ∧ lookupA c2WitnessKey (fireStep 5 c10WitnessState 20
          (some c10WitnessResponse)).checkpointer.checkpoints.expireTimes
          = some (20 + 5)
      ∧ (fireStep 5 c10WitnessState 20 (some c10WitnessResponse)).uploaderCalls
          = c10WitnessState.uploaderCalls + 1
      ∧ (fireStep 5 c10WitnessState 20 (some c10WitnessResponse)).uploadedLogs
          = c10WitnessState.uploadedLogs
            + (if 0 < c10WitnessResponse.count then 1 else 0)
      ∧ (fireStep 5 c10WitnessState 20 (some c10WitnessResponse)).delayQueue = [] :=
  c10_success_path_theorem 5 c10WitnessState c2WitnessKey 7 [] 20
    c10WitnessResponse rfl (by decide)

/-- Claim C3 (confirmed): starting from a fresh sink, two events with the
same key and the same (unchanged) file modified time `m`, with the fire of
the first event's queue entry succeeding at captured upload time `u ≥ m`,
lead to exactly one uploader call, and the second event is acknowledged
Delivered without being enqueued — in both interleavings: the second event
arriving before the fire (suppressed by `pending_uploads`) or after it
(suppressed by the checkpoint covering `upload_at = u ≥ m`). -/
theorem c3_no_duplicate_upload_theorem (k : UploadKey) (m u expireAfter : Nat)
    (resp : UploadResponse) (hm : m ≤ u) :
    ((fireStep expireAfter
        (intakeStep (intakeStep initialSinkState 1 (some k) (some m))
          2 (some k) (some m)) u (some resp)).uploaderCalls = 1
      ∧ (fireStep expireAfter
          (intakeStep (intakeStep initialSinkState 1 (some k) (some m))
            2 (some k) (some m)) u (some resp)).acks
          = [(2, EventStatus.delivered), (1, EventStatus.delivered)]
      ∧ (fireStep expireAfter
          (intakeStep (intakeStep initialSinkState 1 (some k) (some m))
            2 (some k) (some m)) u (some resp)).delayQueue = [])
    ∧ ((intakeStep (fireStep expireAfter
          (intakeStep initialSinkState 1 (some k) (some m)) u (some resp))
          2 (some k) (some m)).uploaderCalls = 1
      ∧ (intakeStep (fireStep expireAfter
          (intakeStep initialSinkState 1 (some k) (some m)) u (some resp))
          2 (some k) (some m)).acks
          = [(1, EventStatus.delivered), (2, EventStatus.delivered)]
      ∧ (intakeStep (fireStep expireAfter
          (intakeStep initialSinkState 1 (some k) (some m)) u (some resp))
          2 (some k) (some m)).delayQueue = []) := by
  have hnoexp : ¬ (u + expireAfter < u) := by omega
  have hs1 : intakeStep initialSinkState 1 (some k) (some m)
      = { initialSinkState with
          delayQueue := [(k, 1)]
          pendingUploads := [k] } := by
    simp [intakeStep, initialSinkState, Checkpointer.new, Checkpointer.contains,
      CheckPointsView.containsV, CheckPointsView.empty, lookupA]
  constructor
  · -- second event arrives while the first is still pending
    rw [hs1]
    have hs2 : intakeStep
        { initialSinkState with
          delayQueue := [(k, 1)]
          pendingUploads := [k] } 2 (some k) (some m)
        = { initialSinkState with
            delayQueue := [(k, 1)]
            pendingUploads := [k]
            acks := [(2, EventStatus.delivered)] } := by
      simp [intakeStep, initialSinkState, Checkpointer.new, Checkpointer.contains,
        CheckPointsView.containsV, CheckPointsView.empty, lookupA]
    rw [hs2]
    simp [fireStep, initialSinkState]
  · -- second event arrives after the successful fire
    rw [hs1]
    have hfire : fireStep expireAfter
        { initialSinkState with
          delayQueue := [(k, 1)]
          pendingUploads := [k] } u (some resp)
        = { delayQueue := []
            pendingUploads := []
            checkpointer :=
              { checkpoints :=
                  { uploadTimes := [(k, u)]
                    expireTimes := [(k, u + expireAfter)] }
                last := [{ uploadKey := k, uploadAt := u,
                           expireAt := u + expireAfter }] }
            disk := { tmpFile := none,
                      stableFile := some [{ uploadKey := k, uploadAt := u,
                                            expireAt := u + expireAfter }] }
            acks := [(1, EventStatus.delivered)]
            uploaderCalls := 1
            uploadedLogs := 0 + (if 0 < resp.count then 1 else 0) } := by
      simp only [fireStep, initialSinkState]
      simp [Checkpointer.update, CheckPointsView.updateV, Checkpointer.new,
        CheckPointsView.empty, setA, Checkpointer.writeCheckpoints,
        CheckPointsView.removeExpired, CheckPointsView.getState, lookupA,
        List.erase, hnoexp, List.filter]
    rw [hfire]
    simp [intakeStep, Checkpointer.contains, CheckPointsView.containsV, lookupA, hm]

/-- Claim C3 witness: the theorem applied at a concrete key, modified time 3,
upload time 5, expire-after 100, count-1 response. -/
theorem c3_no_duplicate_upload_witness :
    ((fireStep 100
        (intakeStep (intakeStep initialSinkState 1 (some c2WitnessKey) (some 3))
          2 (some c2WitnessKey) (some 3)) 5
        (some { count := 1, eventsByteSize := 5 })).uploaderCalls = 1
      ∧ (fireStep 100
          (intakeStep (intakeStep initialSinkState 1 (some c2WitnessKey) (some 3))
            2 (some c2WitnessKey) (some 3)) 5
          (some { count := 1, eventsByteSize := 5 })).acks
          = [(2, EventStatus.delivered), (1, EventStatus.delivered)]
      ∧ (fireStep 100
          (intakeStep (intakeStep initialSinkState 1 (some c2WitnessKey) (some 3))
            2 (some c2WitnessKey) (some 3)) 5
          (some { count := 1, eventsByteSize := 5 })).delayQueue = [])
    ∧ ((intakeStep (fireStep 100
          (intakeStep initialSinkState 1 (some c2WitnessKey) (some 3)) 5
          (some { count := 1, eventsByteSize := 5 }))
          2 (some c2WitnessKey) (some 3)).uploaderCalls = 1
      ∧ (intakeStep (fireStep 100
          (intakeStep initialSinkState 1 (some c2WitnessKey) (some 3)) 5
          (some { count := 1, eventsByteSize := 5 }))
          2 (some c2WitnessKey) (some 3)).acks
          = [(1, EventStatus.delivered), (2, EventStatus.delivered)]
      ∧ (intakeStep (fireStep 100
          (intakeStep initialSinkState 1 (some c2WitnessKey) (some 3)) 5
          (some { count := 1, eventsByteSize := 5 }))
          2 (some c2WitnessKey) (some 3)).delayQueue = []) :=
  c3_no_duplicate_upload_theorem c2WitnessKey 3 5 100
    { count := 1, eventsByteSize := 5 } (by decide)

/-! ## TopSQL record types
From the generated protobuf types used by
`src/sources/topsql/upstream/tidb/parser.rs` and `…/tikv/parser.rs`. -/

/-- `TopSqlRecordItem` (TiDB): per-second counters; the per-TiKV-instance
`stmt_kv_exec_count : BTreeMap<String, u64>` is an association list. -/
structure TopSqlRecordItem where
  timestampSec : Nat
  cpuTimeMs : Nat
  stmtExecCount : Nat
  stmtKvExecCount : List (String × Nat)
  stmtDurationSumNs : Nat
  stmtDurationCount : Nat
deriving DecidableEq

/-- `TopSqlRecordItem::default()`. -/
def TopSqlRecordItem.zero : TopSqlRecordItem :=
  { timestampSec := 0, cpuTimeMs := 0, stmtExecCount := 0, stmtKvExecCount := [],
    stmtDurationSumNs := 0, stmtDurationCount := 0 }

structure TopSqlRecord where
  sqlDigest : List Nat
  planDigest : List Nat
  items : List TopSqlRecordItem
deriving DecidableEq

/-- `TopSqlSubResponse`: either a record, or a response `keep_top_n` and
`downsampling` pass through unchanged (`SqlMeta`, `PlanMeta`, or an empty
oneof); the passthrough payload is abstracted to an identifier. -/
inductive TopSqlSubResponse where
  | record (r : TopSqlRecord)
  | passthrough (id : Nat)
deriving DecidableEq

/-- `GroupTagRecordItem` (TiKV). -/
structure GroupTagRecordItem where
  timestampSec : Nat
  cpuTimeMs : Nat
  readKeys : Nat
  writeKeys : Nat
deriving DecidableEq

/-- `GroupTagRecordItem::default()`. -/
def GroupTagRecordItem.zero : GroupTagRecordItem :=
  { timestampSec := 0, cpuTimeMs := 0, readKeys := 0, writeKeys := 0 }

structure GroupTagRecord where
  resourceGroupTag : List Nat
  items : List GroupTagRecordItem
deriving DecidableEq

/-- `ResourceUsageRecord`: `record_oneof` is `Some(Record(…))` or `None`;
the `None` responses are passed through unchanged. -/
inductive ResourceUsageRecord where
  | record (r : GroupTagRecord)
  | emptyOneof
deriving DecidableEq

/-- The `match map.get(k) { None => insert(k, v), Some(e) => insert(k, e+v) }`
idiom used to element-wise sum a `stmt_kv_exec_count` map into another. -/
def mergeKvInto (dst src : List (String × Nat)) : List (String × Nat) :=
  src.foldl
    (fun d p =>
      match lookupA p.1 d with
      | none => setA p.1 p.2 d
      | some v => setA p.1 (v + p.2) d)
    dst

/-! ## C8 — downsampling
Embedded from `TopSqlSubResponseParser::downsampling`
(`extensions/topsql/src/upstream/tidb/parser.rs`, identical in
`src/sources/topsql/upstream/tidb/parser.rs`) and
`ResourceUsageRecordParser::downsampling`
(`src/sources/topsql/upstream/tikv/parser.rs`).  The `BTreeMap` of bucketed
items is an association list; its iteration order only permutes the output
item list and no claim below depends on it. -/

/-- The bucket timestamp `new_ts = t + (interval_sec - t % interval_sec)`
computed for every item. -/
def bucketTs (intervalSec t : Nat) : Nat :=
  t + (intervalSec - t % intervalSec)

def tidbDownFold (intervalSec : Nat) (items : List TopSqlRecordItem)
    (m : List (Nat × TopSqlRecordItem)) : List (Nat × TopSqlRecordItem) :=
  items.foldl
    (fun m item =>
      let newTs := bucketTs intervalSec item.timestampSec
      match lookupA newTs m with
      | none => setA newTs { item with timestampSec := newTs } m
      | some existed =>
        setA newTs
          { existed with
            cpuTimeMs := existed.cpuTimeMs + item.cpuTimeMs,
            stmtExecCount := existed.stmtExecCount + item.stmtExecCount,
            stmtDurationCount := existed.stmtDurationCount + item.stmtDurationCount,
            stmtDurationSumNs := existed.stmtDurationSumNs + item.stmtDurationSumNs,
            stmtKvExecCount := mergeKvInto existed.stmtKvExecCount item.stmtKvExecCount }
          m)
    m

def tidbDownsampleItems (intervalSec : Nat) (items : List TopSqlRecordItem) :
    List TopSqlRecordItem :=
  (tidbDownFold intervalSec items []).map Prod.snd

/-- `TopSqlSubResponseParser::downsampling`: no-op for `interval_sec <= 1`,
otherwise re-bucket every record's items. -/
def tidbDownsampling (responses : List TopSqlSubResponse) (intervalSec : Nat) :
    List TopSqlSubResponse :=
  if intervalSec ≤ 1 then responses
  else
    responses.map fun r =>
      match r with
      | TopSqlSubResponse.record rec =>
        TopSqlSubResponse.record
          { rec with items := tidbDownsampleItems intervalSec rec.items }
      | TopSqlSubResponse.passthrough i => TopSqlSubResponse.passthrough i

def tikvDownFold (intervalSec : Nat) (items : List GroupTagRecordItem)
    (m : List (Nat × GroupTagRecordItem)) : List (Nat × GroupTagRecordItem) :=
  items.foldl
    (fun m item =>
      let newTs := bucketTs intervalSec item.timestampSec
      match lookupA newTs m with
      | none => setA newTs { item with timestampSec := newTs } m
      | some existed =>
        setA newTs
          { existed with
            cpuTimeMs := existed.cpuTimeMs + item.cpuTimeMs,
            readKeys := existed.readKeys + item.readKeys,
            writeKeys := existed.writeKeys + item.writeKeys }
          m)
    m

def tikvDownsampleItems (intervalSec : Nat) (items : List GroupTagRecordItem) :
    List GroupTagRecordItem :=
  (tikvDownFold intervalSec items []).map Prod.snd

/-- `ResourceUsageRecordParser::downsampling`. -/
def tikvDownsampling (responses : List ResourceUsageRecord) (intervalSec : Nat) :
    List ResourceUsageRecord :=
  if intervalSec ≤ 1 then responses
  else
    responses.map fun r =>
      match r with
      | ResourceUsageRecord.record rec =>
        ResourceUsageRecord.record
          { rec with items := tikvDownsampleItems intervalSec rec.items }
      | ResourceUsageRecord.emptyOneof => ResourceUsageRecord.emptyOneof

theorem mem_setA {ν : Type} [DecidableEq κ] (k : κ) (v : ν) (m : List (κ × ν))
    (q : κ × ν) (h : q ∈ setA k v m) : q = (k, v) ∨ q ∈ m := by
  induction m with
  | nil => simpa [setA] using h
  | cons p rest ih =>
    obtain ⟨k', v'⟩ := p
    by_cases hk : k' = k
    · subst hk
      simp [setA] at h
      rcases h with h | h
      · exact Or.inl (by simp [h])
      · exact Or.inr (by simp [h])
    · simp [setA, hk] at h
      rcases h with h | h
      · exact Or.inr (by simp [h])
      · rcases ih h with h1 | h1
        · exact Or.inl h1
        · exact Or.inr (by simp [h1])

theorem lookupA_mem {ν : Type} [DecidableEq κ] (k : κ) (m : List (κ × ν)) (v : ν)
    (h : lookupA k m = some v) : (k, v) ∈ m := by
  induction m with
  | nil => simp [lookupA] at h
  | cons p rest ih =>
    obtain ⟨k', v'⟩ := p
    by_cases hk : k' = k
    · subst hk
      simp [lookupA] at h
      simp [h]
    · simp [lookupA, hk] at h
      simp [ih h]

/-- Every entry of the tidb bucket map maps the bucket timestamp of some
input item to an item stamped with that bucket timestamp. -/
theorem tidbDownFold_spec (intervalSec : Nat) :
    ∀ (items : List TopSqlRecordItem) (m : List (Nat × TopSqlRecordItem)),
      (∀ p ∈ m, (p : Nat × TopSqlRecordItem).2.timestampSec = p.1) →
      ∀ p ∈ tidbDownFold intervalSec items m,
        p.2.timestampSec = p.1
          ∧ (p.1 ∈ keysA m
             ∨ ∃ it ∈ items, p.1 = bucketTs intervalSec it.timestampSec) := by
  intro items
  induction items with
  | nil =>
    intro m hm p hp
    exact ⟨hm p hp, Or.inl (List.mem_map_of_mem Prod.fst hp)⟩
  | cons it rest ih =>
    intro m hm p hp
    rw [show tidbDownFold intervalSec (it :: rest) m
        = tidbDownFold intervalSec rest
          (match lookupA (bucketTs intervalSec it.timestampSec) m with
           | none => setA (bucketTs intervalSec it.timestampSec)
               { it with timestampSec := bucketTs intervalSec it.timestampSec } m
           | some existed =>
             setA (bucketTs intervalSec it.timestampSec)
               { existed with
                 cpuTimeMs := existed.cpuTimeMs + it.cpuTimeMs,
                 stmtExecCount := existed.stmtExecCount + it.stmtExecCount,
                 stmtDurationCount := existed.stmtDurationCount + it.stmtDurationCount,
                 stmtDurationSumNs := existed.stmtDurationSumNs + it.stmtDurationSumNs,
                 stmtKvExecCount :=
                   mergeKvInto existed.stmtKvExecCount it.stmtKvExecCount } m)
      from rfl] at hp
    rcases hlk : lookupA (bucketTs intervalSec it.timestampSec) m with _ | existed
    · rw [hlk] at hp
      have hm' : ∀ q ∈ setA (bucketTs intervalSec it.timestampSec)
          { it with timestampSec := bucketTs intervalSec it.timestampSec } m,
          (q : Nat × TopSqlRecordItem).2.timestampSec = q.1 := by
        intro q hq
        rcases mem_setA _ _ _ _ hq with h | h
        · rw [h]
        · exact hm q h
      rcases ih _ hm' p hp with ⟨h1, h2⟩
      refine ⟨h1, ?_⟩
      rcases h2 with h2 | ⟨it', hit', h3⟩
      · rw [keysA_setA] at h2
        by_cases hmem : bucketTs intervalSec it.timestampSec ∈ keysA m
        · rw [if_pos hmem] at h2
          exact Or.inl h2
        · rw [if_neg hmem] at h2
          rcases List.mem_append.mp h2 with h3 | h3
          · exact Or.inl h3
          · simp at h3
            exact Or.inr ⟨it, by simp, h3⟩
      · exact Or.inr ⟨it', by simp [hit'], h3⟩
    · rw [hlk] at hp
      have hexist : existed.timestampSec = bucketTs intervalSec it.timestampSec :=
        hm _ (lookupA_mem _ _ _ hlk)
      have hm' : ∀ q ∈ setA (bucketTs intervalSec it.timestampSec)
          { existed with
            cpuTimeMs := existed.cpuTimeMs + it.cpuTimeMs,
            stmtExecCount := existed.stmtExecCount + it.stmtExecCount,
            stmtDurationCount := existed.stmtDurationCount + it.stmtDurationCount,
            stmtDurationSumNs := existed.stmtDurationSumNs + it.stmtDurationSumNs,
            stmtKvExecCount :=
              mergeKvInto existed.stmtKvExecCount it.stmtKvExecCount } m,
          (q : Nat × TopSqlRecordItem).2.timestampSec = q.1 := by
        intro q hq
        rcases mem_setA _ _ _ _ hq with h | h
        · rw [h]
          exact hexist
        · exact hm q h
      rcases ih _ hm' p hp with ⟨h1, h2⟩
      refine ⟨h1, ?_⟩
      rcases h2 with h2 | ⟨it', hit', h3⟩
      · rw [keysA_setA] at h2
        by_cases hmem : bucketTs intervalSec it.timestampSec ∈ keysA m
        · rw [if_pos hmem] at h2
          exact Or.inl h2
        · rw [if_neg hmem] at h2
          rcases List.mem_append.mp h2 with h3 | h3
          · exact Or.inl h3
          · simp at h3
            exact Or.inr ⟨it, by simp, h3⟩
      · exact Or.inr ⟨it', by simp [hit'], h3⟩

/-- Every entry of the tikv bucket map maps the bucket timestamp of some
input item to an item stamped with that bucket timestamp. -/
theorem tikvDownFold_spec (intervalSec : Nat) :
    ∀ (items : List GroupTagRecordItem) (m : List (Nat × GroupTagRecordItem)),
      (∀ p ∈ m, (p : Nat × GroupTagRecordItem).2.timestampSec = p.1) →
      ∀ p ∈ tikvDownFold intervalSec items m,
        p.2.timestampSec = p.1
          ∧ (p.1 ∈ keysA m
             ∨ ∃ it ∈ items, p.1 = bucketTs intervalSec it.timestampSec) := by
  intro items
  induction items with
  | nil =>
    intro m hm p hp
    exact ⟨hm p hp, Or.inl (List.mem_map_of_mem Prod.fst hp)⟩
  | cons it rest ih =>
    intro m hm p hp
    rw [show tikvDownFold intervalSec (it :: rest) m
        = tikvDownFold intervalSec rest
          (match lookupA (bucketTs intervalSec it.timestampSec) m with
           | none => setA (bucketTs intervalSec it.timestampSec)
               { it with timestampSec := bucketTs intervalSec it.timestampSec } m
           | some existed =>
             setA (bucketTs intervalSec it.timestampSec)
               { existed with
                 cpuTimeMs := existed.cpuTimeMs + it.cpuTimeMs,
                 readKeys := existed.readKeys + it.readKeys,
                 writeKeys := existed.writeKeys + it.writeKeys } m)
      from rfl] at hp
    rcases hlk : lookupA (bucketTs intervalSec it.timestampSec) m with _ | existed
    · rw [hlk] at hp
      have hm' : ∀ q ∈ setA (bucketTs intervalSec it.timestampSec)
          { it with timestampSec := bucketTs intervalSec it.timestampSec } m,
          (q : Nat × GroupTagRecordItem).2.timestampSec = q.1 := by
        intro q hq
        rcases mem_setA _ _ _ _ hq with h | h
        · rw [h]
        · exact hm q h
      rcases ih _ hm' p hp with ⟨h1, h2⟩
      refine ⟨h1, ?_⟩
      rcases h2 with h2 | ⟨it', hit', h3⟩
      · rw [keysA_setA] at h2
        by_cases hmem : bucketTs intervalSec it.timestampSec ∈ keysA m
        · rw [if_pos hmem] at h2
          exact Or.inl h2
        · rw [if_neg hmem] at h2
          rcases List.mem_append.mp h2 with h3 | h3
          · exact Or.inl h3
          · simp at h3
            exact Or.inr ⟨it, by simp, h3⟩
      · exact Or.inr ⟨it', by simp [hit'], h3⟩
    · rw [hlk] at hp
      have hexist : existed.timestampSec = bucketTs intervalSec it.timestampSec :=
        hm _ (lookupA_mem _ _ _ hlk)
      have hm' : ∀ q ∈ setA (bucketTs intervalSec it.timestampSec)
          { existed with
            cpuTimeMs := existed.cpuTimeMs + it.cpuTimeMs,
            readKeys := existed.readKeys + it.readKeys,
            writeKeys := existed.writeKeys + it.writeKeys } m,
          (q : Nat × GroupTagRecordItem).2.timestampSec = q.1 := by
        intro q hq
        rcases mem_setA _ _ _ _ hq with h | h
        · rw [h]
          exact hexist
        · exact hm q h
      rcases ih _ hm' p hp with ⟨h1, h2⟩
      refine ⟨h1, ?_⟩
      rcases h2 with h2 | ⟨it', hit', h3⟩
      · rw [keysA_setA] at h2
        by_cases hmem : bucketTs intervalSec it.timestampSec ∈ keysA m
        · rw [if_pos hmem] at h2
          exact Or.inl h2
        · rw [if_neg hmem] at h2
          rcases List.mem_append.mp h2 with h3 | h3
          · exact Or.inl h3
          · simp at h3
            exact Or.inr ⟨it, by simp, h3⟩
      · exact Or.inr ⟨it', by simp [hit'], h3⟩

/-- Claim C8 (confirmed): downsampling is the identity for
`interval_sec ≤ 1`; for `interval_sec > 1` every produced item sits at the
bucket timestamp `t + (I - t % I)` of some input item, and that bucket
timestamp always lies in the half-open interval `(t, t + I]` — in
particular, a `t` that is an exact multiple of `I` is bucketed at `t + I`,
not `t`. -/
theorem c8_downsampling_bucket_theorem (intervalSec : Nat) :
    (intervalSec ≤ 1 →
      ∀ (rsT : List TopSqlSubResponse) (rsK : List ResourceUsageRecord),
        tidbDownsampling rsT intervalSec = rsT
          ∧ tikvDownsampling rsK intervalSec = rsK)
    ∧ (1 < intervalSec → ∀ t : Nat,
        t < bucketTs intervalSec t
          ∧ bucketTs intervalSec t ≤ t + intervalSec
          ∧ (t % intervalSec = 0 → bucketTs intervalSec t = t + intervalSec))
    ∧ (1 < intervalSec → ∀ (items : List TopSqlRecordItem),
        ∀ it' ∈ tidbDownsampleItems intervalSec items,
          ∃ it ∈ items, it'.timestampSec = bucketTs intervalSec it.timestampSec)
    ∧ (1 < intervalSec → ∀ (items : List GroupTagRecordItem),
        ∀ it' ∈ tikvDownsampleItems intervalSec items,
          ∃ it ∈ items, it'.timestampSec = bucketTs intervalSec it.timestampSec) := by
  refine ⟨?_, ?_, ?_, ?_⟩
  · intro hI rsT rsK
    constructor
    · unfold tidbDownsampling
      rw [if_pos hI]
    · unfold tikvDownsampling
      rw [if_pos hI]
  · intro hI t
    have hmod : t % intervalSec < intervalSec := Nat.mod_lt _ (by omega)
    unfold bucketTs
    refine ⟨by omega, by omega, ?_⟩
    intro h0
    rw [h0]
    omega
  · intro _ items it' hit'
    unfold tidbDownsampleItems at hit'
    rcases List.mem_map.mp hit' with ⟨p, hp, hsnd⟩
    rcases tidbDownFold_spec intervalSec items [] (by simp) p hp with ⟨h1, h2⟩
    rcases h2 with h2 | ⟨it, hmem, hts⟩
    · simp [keysA] at h2
    · exact ⟨it, hmem, by rw [← hsnd, h1, hts]⟩
  · intro _ items it' hit'
    unfold tikvDownsampleItems at hit'
    rcases List.mem_map.mp hit' with ⟨p, hp, hsnd⟩
    rcases tikvDownFold_spec intervalSec items [] (by simp) p hp with ⟨h1, h2⟩
    rcases h2 with h2 | ⟨it, hmem, hts⟩
    · simp [keysA] at h2
    · exact ⟨it, hmem, by rw [← hsnd, h1, hts]⟩

/-- Claim C8 witness: the theorem applied at interval 15 and timestamp
1709646900 (an exact multiple of 15), and at interval 1 on concrete record
lists. -/
theorem c8_downsampling_bucket_witness :
    ((1709646900 : Nat) < bucketTs 15 1709646900
        ∧ bucketTs 15 1709646900 ≤ 1709646900 + 15
        ∧ (1709646900 % 15 = 0 → bucketTs 15 1709646900 = 1709646900 + 15))
      ∧ tidbDownsampling [TopSqlSubResponse.passthrough 0] 1
          = [TopSqlSubResponse.passthrough 0]
      ∧ tikvDownsampling [ResourceUsageRecord.emptyOneof] 1
          = [ResourceUsageRecord.emptyOneof] :=
  ⟨(c8_downsampling_bucket_theorem 15).2.1 (by decide) 1709646900,
   ((c8_downsampling_bucket_theorem 1).1 (by decide)
     [TopSqlSubResponse.passthrough 0] [ResourceUsageRecord.emptyOneof]).1,
   ((c8_downsampling_bucket_theorem 1).1 (by decide)
     [TopSqlSubResponse.passthrough 0] [ResourceUsageRecord.emptyOneof]).2⟩

/-! ## C1 — per-timestamp top-N retention (TiDB parser)
Embedded from `TopSqlSubResponseParser::keep_top_n` in
`src/sources/topsql/upstream/tidb/parser.rs` (the per-timestamp variant).
`BTreeMap`s become association lists (iteration order only permutes
outputs; the claims below are sums and permutations).  Rust's stable
`sort_by` is embedded as `List.insertionSort` with the same
cpu-descending comparator. -/

/-- The `PerSecondDigest` local struct of the TiDB `keep_top_n`. -/
structure PerSecondDigest where
  sqlDigest : List Nat
  planDigest : List Nat
  cpuTimeMs : Nat
  stmtExecCount : Nat
  stmtKvExecCount : List (String × Nat)
  stmtDurationSumNs : Nat
  stmtDurationCount : Nat
deriving DecidableEq

/-- `|psd1, psd2| psd2.cpu_time_ms.cmp(&psd1.cpu_time_ms)` — cpu time
descending. -/
def cpuDescT (a b : PerSecondDigest) : Prop :=
  b.cpuTimeMs ≤ a.cpuTimeMs

instance : DecidableRel cpuDescT := fun a b => Nat.decLe _ _

/-- Accumulator of the first loop of the TiDB `keep_top_n`:
`new_responses`, `ts_others` and `ts_digests`. -/
structure TidbTopNAcc where
  newResponses : List TopSqlSubResponse
  tsOthers : List (Nat × TopSqlRecordItem)
  tsDigests : List (Nat × List PerSecondDigest)
deriving DecidableEq

/-- The `PerSecondDigest` built from a record and one of its items. -/
def tidbPsdOf (record : TopSqlRecord) (item : TopSqlRecordItem) : PerSecondDigest :=
  { sqlDigest := record.sqlDigest, planDigest := record.planDigest,
    cpuTimeMs := item.cpuTimeMs, stmtExecCount := item.stmtExecCount,
    stmtKvExecCount := item.stmtKvExecCount,
    stmtDurationSumNs := item.stmtDurationSumNs,
    stmtDurationCount := item.stmtDurationCount }

/-- `for item in record.items { ts_others.insert(item.timestamp_sec, item) }`
— note the overwriting `insert`. -/
def tidbAddOthers (items : List TopSqlRecordItem)
    (tsOthers : List (Nat × TopSqlRecordItem)) : List (Nat × TopSqlRecordItem) :=
  items.foldl (fun m item => setA item.timestampSec item m) tsOthers

/-- Append each item of a real record, as a `PerSecondDigest`, to the
`ts_digests` group of its timestamp. -/
def tidbAddDigests (record : TopSqlRecord)
    (tsDigests : List (Nat × List PerSecondDigest)) :
    List (Nat × List PerSecondDigest) :=
  record.items.foldl
    (fun m item => appendAt item.timestampSec (tidbPsdOf record item) m) tsDigests

/-- First phase: split the responses.  Non-record responses pass through;
an empty-digest record's items *overwrite* (`insert`) the `ts_others` entry
for their timestamp; a real record's items are appended, as
`PerSecondDigest`s, to the `ts_digests` group of their timestamp. -/
def tidbPhaseA (responses : List TopSqlSubResponse) : TidbTopNAcc :=
  responses.foldl
    (fun acc resp =>
      match resp with
      | TopSqlSubResponse.record record =>
        if record.sqlDigest = [] then
          { acc with tsOthers := tidbAddOthers record.items acc.tsOthers }
        else
          { acc with tsDigests := tidbAddDigests record acc.tsDigests }
      | TopSqlSubResponse.passthrough i =>
        { acc with newResponses := acc.newResponses ++ [TopSqlSubResponse.passthrough i] })
    { newResponses := [], tsOthers := [], tsDigests := [] }

/-- The evicted-tail fold of the TiDB `keep_top_n`.  Note: the source uses
`+=` for `cpu_time_ms` and the kv map, but plain `=` for
`stmt_exec_count`, `stmt_duration_sum_ns` and `stmt_duration_count`, so
those three keep only the *last* evicted item's value. -/
def tidbFoldEvicted (ts : Nat) (evicted : List PerSecondDigest) : TopSqlRecordItem :=
  evicted.foldl
    (fun others e =>
      { others with
        timestampSec := ts,
        cpuTimeMs := others.cpuTimeMs + e.cpuTimeMs,
        stmtExecCount := e.stmtExecCount,
        stmtDurationSumNs := e.stmtDurationSumNs,
        stmtDurationCount := e.stmtDurationCount,
        stmtKvExecCount := mergeKvInto others.stmtKvExecCount e.stmtKvExecCount })
    TopSqlRecordItem.zero

/-- Merging a timestamp's evicted sum into the pre-existing others entry
(all four counters summed, kv map element-wise). -/
def tidbMergeOthersItem (dst src : TopSqlRecordItem) : TopSqlRecordItem :=
  { dst with
    cpuTimeMs := dst.cpuTimeMs + src.cpuTimeMs,
    stmtExecCount := dst.stmtExecCount + src.stmtExecCount,
    stmtDurationSumNs := dst.stmtDurationSumNs + src.stmtDurationSumNs,
    stmtDurationCount := dst.stmtDurationCount + src.stmtDurationCount,
    stmtKvExecCount := mergeKvInto dst.stmtKvExecCount src.stmtKvExecCount }

/-- Second phase: per timestamp, keep groups of at most `top_n` digests
unchanged; larger groups are sorted cpu-descending, truncated to `top_n`,
and the tail is folded into the others entry for that timestamp. -/
def tidbPhaseB (topN : Nat) :
    List (Nat × List PerSecondDigest) → List (Nat × TopSqlRecordItem) →
    List (Nat × List PerSecondDigest) × List (Nat × TopSqlRecordItem)
  | [], others => ([], others)
  | (ts, v) :: rest, others =>
    if v.length ≤ topN then
      let r := tidbPhaseB topN rest others
      ((ts, v) :: r.1, r.2)
    else
      let sorted := v.insertionSort cpuDescT
      let othersItem := tidbFoldEvicted ts (sorted.drop topN)
      let others' :=
        match lookupA ts others with
        | none => setA ts othersItem others
        | some existed => setA ts (tidbMergeOthersItem existed othersItem) others
      let r := tidbPhaseB topN rest others'
      ((ts, sorted.take topN) :: r.1, r.2)

/-- Third phase: regroup the kept per-second digests by `(sql_digest,
plan_digest)`. -/
def tidbPhaseC :
    List (Nat × List PerSecondDigest) →
    List ((List Nat × List Nat) × List TopSqlRecordItem) →
    List ((List Nat × List Nat) × List TopSqlRecordItem)
  | [], m => m
  | (ts, v) :: rest, m =>
    tidbPhaseC rest
      (v.foldl
        (fun mm psd =>
          appendAt (psd.sqlDigest, psd.planDigest)
            { timestampSec := ts, cpuTimeMs := psd.cpuTimeMs,
              stmtExecCount := psd.stmtExecCount,
              stmtKvExecCount := psd.stmtKvExecCount,
              stmtDurationSumNs := psd.stmtDurationSumNs,
              stmtDurationCount := psd.stmtDurationCount } mm)
        m)

/-- `TopSqlSubResponseParser::keep_top_n`
(`src/sources/topsql/upstream/tidb/parser.rs`). -/
def tidbKeepTopN (responses : List TopSqlSubResponse) (topN : Nat) :
    List TopSqlSubResponse :=
  let acc := tidbPhaseA responses
  let b := tidbPhaseB topN acc.tsDigests acc.tsOthers
  let digestItems := tidbPhaseC b.1 []
  let digestItems :=
    if b.2 = [] then digestItems
    else setA (([] : List Nat), ([] : List Nat)) (b.2.map Prod.snd) digestItems
  acc.newResponses ++
    digestItems.map (fun p =>
      TopSqlSubResponse.record
        { sqlDigest := p.1.1, planDigest := p.1.2, items := p.2 })

/-- Sum of `stmt_exec_count` at a timestamp over all records of a response
list. -/
def tidbSumExecAt (responses : List TopSqlSubResponse) (ts : Nat) : Nat :=
  (responses.map fun r =>
    match r with
    | TopSqlSubResponse.record rec =>
      ((rec.items.filter (fun it => decide (it.timestampSec = ts))).map
        TopSqlRecordItem.stmtExecCount).sum
    | TopSqlSubResponse.passthrough _ => 0).sum

/-- Sum of `cpu_time_ms` at a timestamp over all records of a response
list. -/
def tidbSumCpuAt (responses : List TopSqlSubResponse) (ts : Nat) : Nat :=
  (responses.map fun r =>
    match r with
    | TopSqlSubResponse.record rec =>
      ((rec.items.filter (fun it => decide (it.timestampSec = ts))).map
        TopSqlRecordItem.cpuTimeMs).sum
    | TopSqlSubResponse.passthrough _ => 0).sum

/-- Three single-item records at timestamp 100 under distinct digests:
cpu times 3, 2, 1 and `stmt_exec_count`s 10, 20, 30. -/
def c1FailingInput : List TopSqlSubResponse :=
  [TopSqlSubResponse.record
    { sqlDigest := [1], planDigest := [],
      items := [{ timestampSec := 100, cpuTimeMs := 3, stmtExecCount := 10,
                  stmtKvExecCount := [], stmtDurationSumNs := 0,
                  stmtDurationCount := 0 }] },
   TopSqlSubResponse.record
    { sqlDigest := [2], planDigest := [],
      items := [{ timestampSec := 100, cpuTimeMs := 2, stmtExecCount := 20,
                  stmtKvExecCount := [], stmtDurationSumNs := 0,
                  stmtDurationCount := 0 }] },
   TopSqlSubResponse.record
    { sqlDigest := [3], planDigest := [],
      items := [{ timestampSec := 100, cpuTimeMs := 1, stmtExecCount := 30,
                  stmtKvExecCount := [], stmtDurationSumNs := 0,
                  stmtDurationCount := 0 }] }]

/-- Claim C1 (code bug): with `top_n = 1`, the input holds 60
`stmt_exec_count` at timestamp 100, but the output of `keep_top_n` holds
only 40 — the evicted digests' counts 20 and 30 are overwritten (`=`)
instead of summed (`+=`) in the others item, which keeps only the last
evicted value 30.  `cpu_time_ms`, which the same loop accumulates with
`+=`, is conserved (6 in, 6 out). -/
theorem c1_topn_conservation_bug :
    tidbSumExecAt c1FailingInput 100 = 60
      ∧ tidbSumExecAt (tidbKeepTopN c1FailingInput 1) 100 = 40
      ∧ tidbSumCpuAt c1FailingInput 100 = 6
      ∧ tidbSumCpuAt (tidbKeepTopN c1FailingInput 1) 100 = 6 := by
  decide

/-! ## C7 — counterexample side: the extensions TiDB `keep_top_n`
Embedded from `extensions/topsql/src/upstream/tidb/parser.rs` (lines
31-102).  This variant ranks whole digests by their *total* cpu time summed
over all items (all timestamps), keeps the records of the top `top_n`
digests in full, and folds all items of every other digest into the
per-timestamp others item.  The `HashMap` of cpu totals is an association
list in first-insertion order; the stable sort on totals means entries
tied at the truncation boundary are resolved by that (in Rust: by hash
iteration) order — the counterexample below has no such tie. -/

/-- Total-cpu ranking of a pair entry, descending. -/
def valDesc (a b : (List Nat × List Nat) × Nat) : Prop :=
  b.2 ≤ a.2

instance : DecidableRel valDesc := fun a b => Nat.decLe _ _

/-- The `cpu_time_map` accumulation: per `(sql_digest, plan_digest)`, the
sum over all records of the record's total `cpu_time_ms`. -/
def extCpuTimeMap (responses : List TopSqlSubResponse) :
    List ((List Nat × List Nat) × Nat) :=
  responses.foldl
    (fun m resp =>
      match resp with
      | TopSqlSubResponse.record record =>
        if record.sqlDigest = [] then m
        else
          setA (record.sqlDigest, record.planDigest)
            ((lookupA (record.sqlDigest, record.planDigest) m).getD 0
              + (record.items.map TopSqlRecordItem.cpuTimeMs).sum) m
      | TopSqlSubResponse.passthrough _ => m)
    []

/-- Sort the totals descending, truncate to `top_n`, collect the digest
pairs. -/
def extTopSet (responses : List TopSqlSubResponse) (topN : Nat) :
    List (List Nat × List Nat) :=
  (((extCpuTimeMap responses).insertionSort valDesc).take topN).map Prod.fst

/-- `TopSqlSubResponseParser::keep_top_n`
(`extensions/topsql/src/upstream/tidb/parser.rs`): keep records whose
digest pair is in the top set, fold every other record's items into the
per-timestamp others item, and append one catch-all others record. -/
def extTidbKeepTopN (responses : List TopSqlSubResponse) (topN : Nat) :
    List TopSqlSubResponse :=
  let topSqlPlan := extTopSet responses topN
  let part := responses.foldl
    (fun (acc : List TopSqlSubResponse × List TopSqlRecord) resp =>
      match resp with
      | TopSqlSubResponse.record record =>
        if (record.sqlDigest, record.planDigest) ∈ topSqlPlan then
          (acc.1 ++ [TopSqlSubResponse.record record], acc.2)
        else
          (acc.1, acc.2 ++ [record])
      | TopSqlSubResponse.passthrough i =>
        (acc.1 ++ [TopSqlSubResponse.passthrough i], acc.2))
    ([], [])
  let othersTsItem := part.2.foldl
    (fun m record =>
      record.items.foldl
        (fun m item =>
          match lookupA item.timestampSec m with
          | none => setA item.timestampSec item m
          | some i => setA item.timestampSec (tidbMergeOthersItem i item) m)
        m)
    []
  part.1 ++
    [TopSqlSubResponse.record
      { sqlDigest := [], planDigest := [],
        items := othersTsItem.map Prod.snd }]

/-- Items at a timestamp belonging to real (non-empty-digest) records. -/
def tidbRealItemsAt (responses : List TopSqlSubResponse) (ts : Nat) :
    List TopSqlRecordItem :=
  (responses.map fun r =>
    match r with
    | TopSqlSubResponse.record rec =>
      if rec.sqlDigest = [] then []
      else rec.items.filter (fun it => decide (it.timestampSec = ts))
    | TopSqlSubResponse.passthrough _ => []).join

/-- Two digests: [1] with one item (cpu 10) at t=100 only, [2] with one
item (cpu 1) at t=200 only. -/
def c7ExtInput : List TopSqlSubResponse :=
  [TopSqlSubResponse.record
    { sqlDigest := [1], planDigest := [],
      items := [{ timestampSec := 100, cpuTimeMs := 10, stmtExecCount := 1,
                  stmtKvExecCount := [], stmtDurationSumNs := 0,
                  stmtDurationCount := 0 }] },
   TopSqlSubResponse.record
    { sqlDigest := [2], planDigest := [],
      items := [{ timestampSec := 200, cpuTimeMs := 1, stmtExecCount := 1,
                  stmtKvExecCount := [], stmtDurationSumNs := 0,
                  stmtDurationCount := 0 }] }]

/-- Claim C7, counterexample to the claim as stated: in the extensions TiDB
`keep_top_n` with `top_n = 1`, timestamp 200 carries exactly one real item
(≤ top_n, so the claim requires it to be kept unchanged), yet the output
keeps no real item at 200: digest [2] is evicted because its *total* cpu
time across all timestamps (1) is below digest [1]'s total (10).  Retention
is not per-timestamp in this parser. -/
theorem c7_per_ts_topn_counterexample :
    (tidbRealItemsAt c7ExtInput 200).length = 1
      ∧ tidbRealItemsAt (extTidbKeepTopN c7ExtInput 1) 200 = [] := by
  decide

/-! ## C7 — amended side: the per-timestamp TiKV `keep_top_n`
Embedded from `ResourceUsageRecordParser::keep_top_n` in
`src/sources/topsql/upstream/tikv/parser.rs` (lines 27-130).  The protobuf
`decode_tag` (prost decoding of `ResourceGroupTag`, returning the hex
sql digest, plan digest and label) is a parameter `decodeTag`, and the
constant `Self::encode_tag(vec![], vec![], None)` used as the others key is
the parameter `emptyTag`. -/

/-- The `PerSecondDigest` local struct of the TiKV `keep_top_n`. -/
structure TikvPSD where
  resourceGroupTag : List Nat
  cpuTimeMs : Nat
  readKeys : Nat
  writeKeys : Nat
deriving DecidableEq

/-- `|psd1, psd2| psd2.cpu_time_ms.cmp(&psd1.cpu_time_ms)` — cpu time
descending. -/
def cpuDescK (a b : TikvPSD) : Prop :=
  b.cpuTimeMs ≤ a.cpuTimeMs

instance : DecidableRel cpuDescK := fun a b => Nat.decLe _ _

instance : IsTotal TikvPSD cpuDescK :=
  ⟨fun a b => Nat.le_total b.cpuTimeMs a.cpuTimeMs⟩

instance : IsTrans TikvPSD cpuDescK :=
  ⟨fun _ _ _ h1 h2 => Nat.le_trans h2 h1⟩

structure TikvTopNAcc where
  newResponses : List ResourceUsageRecord
  tsOthers : List (Nat × GroupTagRecordItem)
  tsDigests : List (Nat × List TikvPSD)
deriving DecidableEq

def tikvPsdOf (record : GroupTagRecord) (item : GroupTagRecordItem) : TikvPSD :=
  { resourceGroupTag := record.resourceGroupTag, cpuTimeMs := item.cpuTimeMs,
    readKeys := item.readKeys, writeKeys := item.writeKeys }

/-- `for item in record.items { ts_others.insert(item.timestamp_sec, item) }`. -/
def tikvAddOthers (items : List GroupTagRecordItem)
    (tsOthers : List (Nat × GroupTagRecordItem)) : List (Nat × GroupTagRecordItem) :=
  items.foldl (fun m item => setA item.timestampSec item m) tsOthers

/-- Append each item of a real record to its timestamp's `ts_digests`
group. -/
def tikvAddDigests (record : GroupTagRecord)
    (tsDigests : List (Nat × List TikvPSD)) : List (Nat × List TikvPSD) :=
  record.items.foldl
    (fun m item => appendAt item.timestampSec (tikvPsdOf record item) m) tsDigests

/-- The step function of the first loop of the TiKV `keep_top_n`. -/
def tikvStepA (decodeTag : List Nat → Option (String × String × String))
    (acc : TikvTopNAcc) (resp : ResourceUsageRecord) : TikvTopNAcc :=
  match resp with
  | ResourceUsageRecord.record record =>
    match decodeTag record.resourceGroupTag with
    | none => acc
    | some t =>
      if t.1 = "" then
        { acc with tsOthers := tikvAddOthers record.items acc.tsOthers }
      else
        { acc with tsDigests := tikvAddDigests record acc.tsDigests }
  | ResourceUsageRecord.emptyOneof =>
    { acc with newResponses := acc.newResponses ++ [ResourceUsageRecord.emptyOneof] }

/-- First phase of the TiKV `keep_top_n`: split the responses. Records whose
tag fails to decode are dropped; empty-digest records overwrite the
`ts_others` entries of their items' timestamps; real records contribute
`PerSecondDigest`s grouped by timestamp; `None`-oneof responses pass
through. -/
def tikvPhaseA (decodeTag : List Nat → Option (String × String × String))
    (responses : List ResourceUsageRecord) : TikvTopNAcc :=
  responses.foldl (tikvStepA decodeTag)
    { newResponses := [], tsOthers := [], tsDigests := [] }

/-- The evicted-tail fold (all three counters accumulated with `+=`). -/
def tikvFoldEvicted (ts : Nat) (evicted : List TikvPSD) : GroupTagRecordItem :=
  evicted.foldl
    (fun others e =>
      { others with
        timestampSec := ts,
        cpuTimeMs := others.cpuTimeMs + e.cpuTimeMs,
        readKeys := others.readKeys + e.readKeys,
        writeKeys := others.writeKeys + e.writeKeys })
    GroupTagRecordItem.zero

def tikvMergeOthersItem (dst src : GroupTagRecordItem) : GroupTagRecordItem :=
  { dst with
    cpuTimeMs := dst.cpuTimeMs + src.cpuTimeMs,
    readKeys := dst.readKeys + src.readKeys,
    writeKeys := dst.writeKeys + src.writeKeys }

/-- Second phase: per timestamp, groups of at most `top_n` digests are kept
unchanged; larger groups are sorted cpu-descending and truncated to
`top_n`, the tail being folded into the others entry for that timestamp. -/
def tikvPhaseB (topN : Nat) :
    List (Nat × List TikvPSD) → List (Nat × GroupTagRecordItem) →
    List (Nat × List TikvPSD) × List (Nat × GroupTagRecordItem)
  | [], others => ([], others)
  | (ts, v) :: rest, others =>
    if v.length ≤ topN then
      let r := tikvPhaseB topN rest others
      ((ts, v) :: r.1, r.2)
    else
      let sorted := v.insertionSort cpuDescK
      let othersItem := tikvFoldEvicted ts (sorted.drop topN)
      let others' :=
        match lookupA ts others with
        | none => setA ts othersItem others
        | some existed => setA ts (tikvMergeOthersItem existed othersItem) others
      let r := tikvPhaseB topN rest others'
      ((ts, sorted.take topN) :: r.1, r.2)

/-- The `GroupTagRecordItem` rebuilt from a kept `PerSecondDigest` at its
timestamp. -/
def tikvItemOf (ts : Nat) (psd : TikvPSD) : GroupTagRecordItem :=
  { timestampSec := ts, cpuTimeMs := psd.cpuTimeMs,
    readKeys := psd.readKeys, writeKeys := psd.writeKeys }

/-- Third phase: regroup the kept per-second digests by
`resource_group_tag`. -/
def tikvPhaseC :
    List (Nat × List TikvPSD) → List (List Nat × List GroupTagRecordItem) →
    List (List Nat × List GroupTagRecordItem)
  | [], m => m
  | (ts, v) :: rest, m =>
    tikvPhaseC rest
      (v.foldl (fun mm psd => appendAt psd.resourceGroupTag (tikvItemOf ts psd) mm) m)

/-- `ResourceUsageRecordParser::keep_top_n`
(`src/sources/topsql/upstream/tikv/parser.rs`). -/
def tikvKeepTopN (decodeTag : List Nat → Option (String × String × String))
    (emptyTag : List Nat) (responses : List ResourceUsageRecord) (topN : Nat) :
    List ResourceUsageRecord :=
  let acc := tikvPhaseA decodeTag responses
  let b := tikvPhaseB topN acc.tsDigests acc.tsOthers
  let digestItems := tikvPhaseC b.1 []
  let digestItems :=
    if b.2 = [] then digestItems
    else setA emptyTag (b.2.map Prod.snd) digestItems
  acc.newResponses ++
    digestItems.map (fun p =>
      ResourceUsageRecord.record { resourceGroupTag := p.1, items := p.2 })

/-- The real (decoded, non-empty-digest) per-second digests of the input at
one timestamp, in input order. -/
def tikvGatherAt (decodeTag : List Nat → Option (String × String × String))
    (responses : List ResourceUsageRecord) (ts : Nat) : List TikvPSD :=
  (responses.map fun r =>
    match r with
    | ResourceUsageRecord.record record =>
      match decodeTag record.resourceGroupTag with
      | none => []
      | some t =>
        if t.1 = "" then []
        else (record.items.filter (fun it => decide (it.timestampSec = ts))).map
          (tikvPsdOf record)
    | ResourceUsageRecord.emptyOneof => []).join

/-- What per-timestamp retention keeps at one timestamp: everything when
the group is within `top_n`, else the first `top_n` of the stable
cpu-descending sort. -/
def tikvKeptAt (topN : Nat) (v : List TikvPSD) : List TikvPSD :=
  if v.length ≤ topN then v else (v.insertionSort cpuDescK).take topN

/-- The per-second digests at one timestamp carried by output records other
than the `emptyTag` others record. -/
def tikvOutRealAt (emptyTag : List Nat) (responses : List ResourceUsageRecord)
    (ts : Nat) : List TikvPSD :=
  (responses.map fun r =>
    match r with
    | ResourceUsageRecord.record record =>
      if record.resourceGroupTag = emptyTag then []
      else (record.items.filter (fun it => decide (it.timestampSec = ts))).map
        (tikvPsdOf record)
    | ResourceUsageRecord.emptyOneof => []).join

/-! ### Generic association-list lemmas for the C7 proof -/

theorem mem_keysA_appendAt {ν : Type} [DecidableEq κ] (k k' : κ) (x : ν)
    (m : List (κ × List ν)) :
    k' ∈ keysA (appendAt k x m) ↔ k' ∈ keysA m ∨ k' = k := by
  rw [keysA_appendAt]
  by_cases hm : k ∈ keysA m
  · rw [if_pos hm]
    constructor
    · exact Or.inl
    · rintro (h | h)
      · exact h
      · rw [h]; exact hm
  · rw [if_neg hm]
    simp

/-- All values of all groups satisfy a predicate. -/
def allVals {κ ν : Type} (Q : ν → Prop) (m : List (κ × List ν)) : Prop :=
  ∀ p ∈ m, ∀ x ∈ (p : κ × List ν).2, Q x

theorem allVals_appendAt {ν : Type} [DecidableEq κ] (Q : ν → Prop) (k : κ) (x : ν)
    (m : List (κ × List ν)) (hm : allVals Q m) (hx : Q x) :
    allVals Q (appendAt k x m) := by
  induction m with
  | nil =>
    intro p hp y hy
    simp [appendAt] at hp
    subst hp
    simp at hy
    rw [hy]
    exact hx
  | cons q rest ih =>
    obtain ⟨k', v⟩ := q
    by_cases hk : k' = k
    · subst hk
      intro p hp y hy
      simp [appendAt] at hp
      rcases hp with hp | hp
      · subst hp
        simp at hy
        rcases hy with hy | hy
        · exact hm (k', v) (by simp) y hy
        · rw [hy]; exact hx
      · exact hm p (by simp [hp]) y hy
    · intro p hp y hy
      simp [appendAt, hk] at hp
      rcases hp with hp | hp
      · subst hp
        exact hm (k', v) (by simp) y hy
      · exact ih (fun q hq => hm q (by simp [hq])) p hp y hy

theorem lookupA_map_val {ν ν' : Type} [DecidableEq κ] (f : ν → ν') (k : κ)
    (m : List (κ × ν)) :
    lookupA k (m.map fun p => (p.1, f p.2)) = (lookupA k m).map f := by
  induction m with
  | nil => simp [lookupA]
  | cons p rest ih =>
    obtain ⟨k', v⟩ := p
    by_cases h : k' = k <;> simp [lookupA, h, ih]

theorem keysA_map_val {ν ν' : Type} (f : ν → ν') (m : List (κ × ν)) :
    keysA (m.map fun p => (p.1, f p.2)) = keysA m := by
  unfold keysA
  rw [List.map_map]
  rfl

theorem lookupA_eq_none_of_not_mem {ν : Type} [DecidableEq κ] (k : κ)
    (m : List (κ × ν)) (h : k ∉ keysA m) : lookupA k m = none := by
  induction m with
  | nil => rfl
  | cons p rest ih =>
    obtain ⟨k', v⟩ := p
    simp [keysA] at h
    simp [lookupA, Ne.symm h.1, ih (by simp [keysA, h.2])]

theorem setA_eq_append {ν : Type} [DecidableEq κ] (k : κ) (v : ν)
    (m : List (κ × ν)) (h : k ∉ keysA m) : setA k v m = m ++ [(k, v)] := by
  induction m with
  | nil => simp [setA]
  | cons p rest ih =>
    obtain ⟨k', v'⟩ := p
    simp [keysA] at h
    simp [setA, Ne.symm h.1, ih (by simp [keysA, h.2])]

theorem flatMap_congr_singleton {α : Type} (l : List α) (f : α → List α)
    (h : ∀ x ∈ l, f x = [x]) : l.flatMap f = l := by
  induction l with
  | nil => rfl
  | cons x rest ih =>
    rw [List.flatMap_cons, h x (by simp), ih (fun y hy => h y (by simp [hy]))]
    rfl

theorem flatMap_congr_nil {α β : Type} (l : List α) (f : α → List β)
    (h : ∀ x ∈ l, f x = []) : l.flatMap f = [] := by
  induction l with
  | nil => rfl
  | cons x rest ih =>
    rw [List.flatMap_cons, h x (by simp), ih (fun y hy => h y (by simp [hy]))]
    rfl

/-! ### Phase A of the TiKV `keep_top_n` -/

/-- Appending one record's items to the timestamp groups extends each
timestamp's group with exactly that record's items at that timestamp. -/
theorem tikvAddDigests_lookup (record : GroupTagRecord) :
    ∀ (items : List GroupTagRecordItem) (m : List (Nat × List TikvPSD)) (ts : Nat),
      (lookupA ts (items.foldl
        (fun m item => appendAt item.timestampSec (tikvPsdOf record item) m) m)).getD []
      = ((lookupA ts m).getD [])
        ++ (items.filter (fun it => decide (it.timestampSec = ts))).map
            (tikvPsdOf record) := by
  intro items
  induction items with
  | nil => intro m ts; simp
  | cons it rest ih =>
    intro m ts
    rw [List.foldl_cons, ih]
    by_cases hts : it.timestampSec = ts
    · subst hts
      rw [lookupA_appendAt_self]
      simp
    · rw [lookupA_appendAt_ne _ _ _ _ (Ne.symm hts)]
      simp [List.filter, hts]

theorem tikvAddDigests_nodup (record : GroupTagRecord) :
    ∀ (items : List GroupTagRecordItem) (m : List (Nat × List TikvPSD)),
      (keysA m).Nodup →
      (keysA (items.foldl
        (fun m item => appendAt item.timestampSec (tikvPsdOf record item) m) m)).Nodup := by
  intro items
  induction items with
  | nil => intro m h; exact h
  | cons it rest ih =>
    intro m h
    exact ih _ (nodup_keysA_appendAt _ _ _ h)

theorem tikvAddDigests_allVals (Q : TikvPSD → Prop) (record : GroupTagRecord)
    (hrec : ∀ item : GroupTagRecordItem, Q (tikvPsdOf record item)) :
    ∀ (items : List GroupTagRecordItem) (m : List (Nat × List TikvPSD)),
      allVals Q m →
      allVals Q (items.foldl
        (fun m item => appendAt item.timestampSec (tikvPsdOf record item) m) m) := by
  intro items
  induction items with
  | nil => intro m h; exact h
  | cons it rest ih =>
    intro m h
    exact ih _ (allVals_appendAt Q _ _ _ h (hrec it))

theorem tikvStepA_record_real (decodeTag : List Nat → Option (String × String × String))
    (acc : TikvTopNAcc) (record : GroupTagRecord) (t : String × String × String)
    (hdec : decodeTag record.resourceGroupTag = some t) (hemp : t.1 ≠ "") :
    tikvStepA decodeTag acc (ResourceUsageRecord.record record)
      = { acc with tsDigests := tikvAddDigests record acc.tsDigests } := by
  simp [tikvStepA, hdec, hemp]

theorem tikvStepA_record_others (decodeTag : List Nat → Option (String × String × String))
    (acc : TikvTopNAcc) (record : GroupTagRecord) (t : String × String × String)
    (hdec : decodeTag record.resourceGroupTag = some t) (hemp : t.1 = "") :
    tikvStepA decodeTag acc (ResourceUsageRecord.record record)
      = { acc with tsOthers := tikvAddOthers record.items acc.tsOthers } := by
  simp [tikvStepA, hdec, hemp]

theorem tikvStepA_record_undecoded
    (decodeTag : List Nat → Option (String × String × String))
    (acc : TikvTopNAcc) (record : GroupTagRecord)
    (hdec : decodeTag record.resourceGroupTag = none) :
    tikvStepA decodeTag acc (ResourceUsageRecord.record record) = acc := by
  simp [tikvStepA, hdec]

theorem tikvStepA_empty (decodeTag : List Nat → Option (String × String × String))
    (acc : TikvTopNAcc) :
    tikvStepA decodeTag acc ResourceUsageRecord.emptyOneof
      = { acc with newResponses :=
          acc.newResponses ++ [ResourceUsageRecord.emptyOneof] } := rfl

/-- Phase A gathers, per timestamp, exactly the real input digests at that
timestamp, in input order. -/
theorem tikvPhaseA_lookup (decodeTag : List Nat → Option (String × String × String)) :
    ∀ (responses : List ResourceUsageRecord) (acc : TikvTopNAcc) (ts : Nat),
      (lookupA ts (responses.foldl (tikvStepA decodeTag) acc).tsDigests).getD []
        = ((lookupA ts acc.tsDigests).getD []) ++ tikvGatherAt decodeTag responses ts := by
  intro responses
  induction responses with
  | nil => intro acc ts; simp [tikvGatherAt]
  | cons resp rest ih =>
    intro acc ts
    rw [List.foldl_cons, ih]
    cases resp with
    | record record =>
      rcases hdec : decodeTag record.resourceGroupTag with _ | t
      · rw [tikvStepA_record_undecoded decodeTag acc record hdec]
        simp [tikvGatherAt, hdec]
      · by_cases hemp : t.1 = ""
        · rw [tikvStepA_record_others decodeTag acc record t hdec hemp]
          simp [tikvGatherAt, hdec, hemp]
        · rw [tikvStepA_record_real decodeTag acc record t hdec hemp]
          have hdig : ({ acc with tsDigests := tikvAddDigests record acc.tsDigests }
              : TikvTopNAcc).tsDigests = tikvAddDigests record acc.tsDigests := rfl
          rw [hdig]
          unfold tikvAddDigests
          rw [tikvAddDigests_lookup record record.items acc.tsDigests ts]
          simp [tikvGatherAt, hdec, hemp]
    | emptyOneof =>
      rw [tikvStepA_empty decodeTag acc]
      simp [tikvGatherAt]

theorem tikvPhaseA_nodup (decodeTag : List Nat → Option (String × String × String)) :
    ∀ (responses : List ResourceUsageRecord) (acc : TikvTopNAcc),
      (keysA acc.tsDigests).Nodup →
      (keysA (responses.foldl (tikvStepA decodeTag) acc).tsDigests).Nodup := by
  intro responses
  induction responses with
  | nil => intro acc h; exact h
  | cons resp rest ih =>
    intro acc h
    rw [List.foldl_cons]
    apply ih
    cases resp with
    | record record =>
      rcases hdec : decodeTag record.resourceGroupTag with _ | t
      · rw [tikvStepA_record_undecoded decodeTag acc record hdec]
        exact h
      · by_cases hemp : t.1 = ""
        · rw [tikvStepA_record_others decodeTag acc record t hdec hemp]
          exact h
        · rw [tikvStepA_record_real decodeTag acc record t hdec hemp]
          exact tikvAddDigests_nodup record record.items acc.tsDigests h
    | emptyOneof =>
      rw [tikvStepA_empty decodeTag acc]
      exact h

/-- Every digest gathered by phase A decodes to a non-empty sql digest. -/
theorem tikvPhaseA_allVals (decodeTag : List Nat → Option (String × String × String)) :
    ∀ (responses : List ResourceUsageRecord) (acc : TikvTopNAcc),
      allVals (fun psd : TikvPSD =>
        ∃ t, decodeTag psd.resourceGroupTag = some t ∧ t.1 ≠ "") acc.tsDigests →
      allVals (fun psd : TikvPSD =>
        ∃ t, decodeTag psd.resourceGroupTag = some t ∧ t.1 ≠ "")
        (responses.foldl (tikvStepA decodeTag) acc).tsDigests := by
  intro responses
  induction responses with
  | nil => intro acc h; exact h
  | cons resp rest ih =>
    intro acc h
    rw [List.foldl_cons]
    apply ih
    cases resp with
    | record record =>
      rcases hdec : decodeTag record.resourceGroupTag with _ | t
      · rw [tikvStepA_record_undecoded decodeTag acc record hdec]
        exact h
      · by_cases hemp : t.1 = ""
        · rw [tikvStepA_record_others decodeTag acc record t hdec hemp]
          exact h
        · rw [tikvStepA_record_real decodeTag acc record t hdec hemp]
          exact tikvAddDigests_allVals _ record
            (fun item => ⟨t, hdec, hemp⟩) record.items acc.tsDigests h
    | emptyOneof =>
      rw [tikvStepA_empty decodeTag acc]
      exact h

theorem tikvPhaseA_newResponses
    (decodeTag : List Nat → Option (String × String × String)) :
    ∀ (responses : List ResourceUsageRecord) (acc : TikvTopNAcc),
      (∀ r ∈ acc.newResponses, r = ResourceUsageRecord.emptyOneof) →
      ∀ r ∈ (responses.foldl (tikvStepA decodeTag) acc).newResponses,
        r = ResourceUsageRecord.emptyOneof := by
  intro responses
  induction responses with
  | nil => intro acc h; exact h
  | cons resp rest ih =>
    intro acc h
    rw [List.foldl_cons]
    apply ih
    cases resp with
    | record record =>
      rcases hdec : decodeTag record.resourceGroupTag with _ | t
      · rw [tikvStepA_record_undecoded decodeTag acc record hdec]
        exact h
      · by_cases hemp : t.1 = ""
        · rw [tikvStepA_record_others decodeTag acc record t hdec hemp]
          exact h
        · rw [tikvStepA_record_real decodeTag acc record t hdec hemp]
          exact h
    | emptyOneof =>
      rw [tikvStepA_empty decodeTag acc]
      intro r hr
      have hrr : r ∈ acc.newResponses ++ [ResourceUsageRecord.emptyOneof] := hr
      rcases List.mem_append.mp hrr with h1 | h1
      · exact h r h1
      · simpa using h1

/-! ### Phases B and C of the TiKV `keep_top_n` -/

/-- Phase B transforms each timestamp group independently into its kept
prefix (`tikvKeptAt`); the threaded others map does not influence the kept
entries. -/
theorem tikvPhaseB_fst (topN : Nat) :
    ∀ (entries : List (Nat × List TikvPSD)) (others : List (Nat × GroupTagRecordItem)),
      (tikvPhaseB topN entries others).1
        = entries.map (fun p => (p.1, tikvKeptAt topN p.2)) := by
  intro entries
  induction entries with
  | nil => intro others; rfl
  | cons p rest ih =>
    intro others
    obtain ⟨ts, v⟩ := p
    rw [tikvPhaseB]
    by_cases hlen : v.length ≤ topN
    · rw [if_pos hlen]
      dsimp only
      rw [ih others]
      simp [tikvKeptAt, hlen]
    · rw [if_neg hlen]
      dsimp only
      rw [ih]
      simp [tikvKeptAt, hlen]

/-- The `(tag, item)` pairs carried by a grouped map. -/
def tikvPairs (m : List (List Nat × List GroupTagRecordItem)) :
    List (List Nat × GroupTagRecordItem) :=
  m.flatMap fun p => p.2.map (fun it => (p.1, it))

/-- The `(tag, rebuilt item)` pairs carried by the kept timestamp groups. -/
def tikvEntriesPairs (entries : List (Nat × List TikvPSD)) :
    List (List Nat × GroupTagRecordItem) :=
  entries.flatMap fun p =>
    p.2.map (fun psd => (psd.resourceGroupTag, tikvItemOf p.1 psd))

theorem tikvPairs_appendAt (tag : List Nat) (it : GroupTagRecordItem)
    (m : List (List Nat × List GroupTagRecordItem)) :
    (tikvPairs (appendAt tag it m)).Perm ((tag, it) :: tikvPairs m) := by
  induction m with
  | nil =>
    simp [appendAt, tikvPairs]
  | cons p rest ih =>
    obtain ⟨k', v⟩ := p
    by_cases hk : k' = tag
    · subst hk
      have ha : appendAt k' it ((k', v) :: rest) = (k', v ++ [it]) :: rest := by
        simp [appendAt]
      rw [ha]
      simp only [tikvPairs, List.flatMap_cons, List.map_append]
      rw [List.append_assoc]
      simpa using List.perm_middle
    · simp only [appendAt, if_neg hk, tikvPairs, List.flatMap_cons]
      exact (List.Perm.append_left _ ih).trans List.perm_middle

theorem tikvPairs_fold (ts : Nat) :
    ∀ (v : List TikvPSD) (m : List (List Nat × List GroupTagRecordItem)),
      (tikvPairs (v.foldl (fun mm psd =>
          appendAt psd.resourceGroupTag (tikvItemOf ts psd) mm) m)).Perm
        ((v.map fun psd => (psd.resourceGroupTag, tikvItemOf ts psd)) ++ tikvPairs m) := by
  intro v
  induction v with
  | nil => intro m; simp
  | cons psd rest ih =>
    intro m
    rw [List.foldl_cons]
    refine (ih _).trans ?_
    simp only [List.map_cons, List.cons_append]
    exact ((List.Perm.append_left _ (tikvPairs_appendAt _ _ _)).trans List.perm_middle)

theorem tikvPhaseC_pairs :
    ∀ (entries : List (Nat × List TikvPSD))
      (m : List (List Nat × List GroupTagRecordItem)),
      (tikvPairs (tikvPhaseC entries m)).Perm (tikvEntriesPairs entries ++ tikvPairs m) := by
  intro entries
  induction entries with
  | nil => intro m; simp [tikvPhaseC, tikvEntriesPairs]
  | cons p rest ih =>
    intro m
    obtain ⟨ts, v⟩ := p
    rw [show tikvPhaseC ((ts, v) :: rest) m
        = tikvPhaseC rest (v.foldl (fun mm psd =>
            appendAt psd.resourceGroupTag (tikvItemOf ts psd) mm) m) from rfl]
    refine (ih _).trans ?_
    simp only [tikvEntriesPairs, List.flatMap_cons]
    refine (List.Perm.append_left _ (tikvPairs_fold ts v m)).trans ?_
    rw [← List.append_assoc]
    exact List.Perm.append_right _ List.perm_append_comm

theorem keys_foldl_appendAt (ts : Nat) :
    ∀ (v : List TikvPSD) (m : List (List Nat × List GroupTagRecordItem)) (k : List Nat),
      k ∈ keysA (v.foldl (fun mm psd =>
        appendAt psd.resourceGroupTag (tikvItemOf ts psd) mm) m) →
      k ∈ keysA m ∨ ∃ psd ∈ v, psd.resourceGroupTag = k := by
  intro v
  induction v with
  | nil => intro m k h; exact Or.inl h
  | cons psd rest ih =>
    intro m k h
    rw [List.foldl_cons] at h
    rcases ih _ k h with h1 | ⟨q, hq, hqk⟩
    · rw [mem_keysA_appendAt] at h1
      rcases h1 with h1 | h1
      · exact Or.inl h1
      · exact Or.inr ⟨psd, by simp, h1.symm⟩
    · exact Or.inr ⟨q, by simp [hq], hqk⟩

theorem keysA_tikvPhaseC :
    ∀ (entries : List (Nat × List TikvPSD))
      (m : List (List Nat × List GroupTagRecordItem)) (k : List Nat),
      k ∈ keysA (tikvPhaseC entries m) →
      k ∈ keysA m
        ∨ ∃ p ∈ entries, ∃ psd ∈ (p : Nat × List TikvPSD).2,
            psd.resourceGroupTag = k := by
  intro entries
  induction entries with
  | nil => intro m k h; exact Or.inl h
  | cons p rest ih =>
    intro m k h
    obtain ⟨ts, v⟩ := p
    rw [show tikvPhaseC ((ts, v) :: rest) m
        = tikvPhaseC rest (v.foldl (fun mm psd =>
            appendAt psd.resourceGroupTag (tikvItemOf ts psd) mm) m) from rfl] at h
    rcases ih _ k h with h1 | ⟨q, hq, hqmem⟩
    · rcases keys_foldl_appendAt ts v m k h1 with h2 | ⟨psd, hpsd, hpk⟩
      · exact Or.inl h2
      · exact Or.inr ⟨(ts, v), by simp, psd, hpsd, hpk⟩
    · exact Or.inr ⟨q, by simp [hq], hqmem⟩

/-! ### Output decomposition and the main C7 theorem -/

/-- The per-second digests one `(tag, item)` pair contributes to
`tikvOutRealAt` at a timestamp. -/
def tikvPairContrib (ts : Nat) (emptyTag : List Nat)
    (q : List Nat × GroupTagRecordItem) : List TikvPSD :=
  if q.1 = emptyTag then []
  else if q.2.timestampSec = ts then
    [{ resourceGroupTag := q.1, cpuTimeMs := q.2.cpuTimeMs,
       readKeys := q.2.readKeys, writeKeys := q.2.writeKeys }]
  else []

theorem flatMap_map_comp {α β γ : Type} (l : List α) (f : α → β) (g : β → List γ) :
    (l.map f).flatMap g = l.flatMap (fun x => g (f x)) := by
  induction l <;> simp [*]

theorem tikvOutRealAt_append (emptyTag : List Nat) (A B : List ResourceUsageRecord)
    (ts : Nat) :
    tikvOutRealAt emptyTag (A ++ B) ts
      = tikvOutRealAt emptyTag A ts ++ tikvOutRealAt emptyTag B ts := by
  simp [tikvOutRealAt]

theorem tikvOutRealAt_passthrough (emptyTag : List Nat) (ts : Nat) :
    ∀ (A : List ResourceUsageRecord),
      (∀ r ∈ A, r = ResourceUsageRecord.emptyOneof) →
      tikvOutRealAt emptyTag A ts = [] := by
  intro A
  induction A with
  | nil => intro _; rfl
  | cons r rest ih =>
    intro h
    have hr := h r (by simp)
    subst hr
    have hrest := ih (fun q hq => h q (by simp [hq]))
    simp [tikvOutRealAt] at hrest ⊢
    exact hrest

theorem tikvContribRecord (ts : Nat) (emptyTag tag : List Nat)
    (items : List GroupTagRecordItem) (htag : tag ≠ emptyTag) :
    ((items.map fun it => ((tag, it) : List Nat × GroupTagRecordItem)).flatMap
        (tikvPairContrib ts emptyTag))
      = (items.filter (fun it => decide (it.timestampSec = ts))).map
          (fun it => ({ resourceGroupTag := tag, cpuTimeMs := it.cpuTimeMs,
                        readKeys := it.readKeys, writeKeys := it.writeKeys } : TikvPSD)) := by
  induction items with
  | nil => rfl
  | cons it rest ih =>
    simp only [List.map_cons, List.flatMap_cons, ih]
    by_cases hts : it.timestampSec = ts
    · simp [tikvPairContrib, htag, hts, List.filter]
    · simp [tikvPairContrib, htag, hts, List.filter]

theorem tikvOutRealAt_records (emptyTag : List Nat) (ts : Nat) :
    ∀ (m : List (List Nat × List GroupTagRecordItem)),
      tikvOutRealAt emptyTag (m.map fun p =>
          ResourceUsageRecord.record { resourceGroupTag := p.1, items := p.2 }) ts
        = (tikvPairs m).flatMap (tikvPairContrib ts emptyTag) := by
  intro m
  induction m with
  | nil => rfl
  | cons p rest ih =>
    obtain ⟨tag, items⟩ := p
    have hlhs : tikvOutRealAt emptyTag
        (((tag, items) :: rest).map fun p =>
          ResourceUsageRecord.record { resourceGroupTag := p.1, items := p.2 }) ts
        = (if tag = emptyTag then []
           else (items.filter (fun it => decide (it.timestampSec = ts))).map
             (tikvPsdOf { resourceGroupTag := tag, items := items }))
          ++ tikvOutRealAt emptyTag
              (rest.map fun p =>
                ResourceUsageRecord.record { resourceGroupTag := p.1, items := p.2 }) ts := by
      simp [tikvOutRealAt]
    rw [hlhs, ih]
    have hrhs : tikvPairs ((tag, items) :: rest)
        = (items.map fun it => ((tag, it) : List Nat × GroupTagRecordItem))
          ++ tikvPairs rest := by
      simp [tikvPairs]
    rw [hrhs, List.flatMap_append]
    by_cases htag : tag = emptyTag
    · rw [if_pos htag]
      have hnil : ((items.map fun it =>
          ((tag, it) : List Nat × GroupTagRecordItem)).flatMap
            (tikvPairContrib ts emptyTag)) = [] := by
        apply flatMap_congr_nil
        intro q hq
        rcases List.mem_map.mp hq with ⟨it, _, hit⟩
        rw [← hit]
        simp [tikvPairContrib, htag]
      rw [hnil]
    · rw [if_neg htag, tikvContribRecord ts emptyTag tag items htag]
      rfl

/-- Contributions of the kept timestamp groups: with duplicate-free keys and
no `emptyTag` digest, the pairs of the groups contribute exactly the group
of the queried timestamp. -/
theorem tikvEntriesPairs_flatMap (ts : Nat) (emptyTag : List Nat) :
    ∀ (entries : List (Nat × List TikvPSD)),
      allVals (fun psd : TikvPSD => psd.resourceGroupTag ≠ emptyTag) entries →
      (keysA entries).Nodup →
      (tikvEntriesPairs entries).flatMap (tikvPairContrib ts emptyTag)
        = (lookupA ts entries).getD [] := by
  intro entries
  induction entries with
  | nil => intro _ _; rfl
  | cons p rest ih =>
    intro hav hnd
    obtain ⟨ts', v⟩ := p
    simp only [keysA, List.map_cons, List.nodup_cons] at hnd
    have hrest : (tikvEntriesPairs rest).flatMap (tikvPairContrib ts emptyTag)
        = (lookupA ts rest).getD [] :=
      ih (fun q hq x hx => hav q (by simp [hq]) x hx) hnd.2
    have hsplit : tikvEntriesPairs ((ts', v) :: rest)
        = (v.map fun psd => (psd.resourceGroupTag, tikvItemOf ts' psd))
          ++ tikvEntriesPairs rest := by
      simp [tikvEntriesPairs]
    rw [hsplit, List.flatMap_append, hrest, flatMap_map_comp]
    by_cases hts : ts' = ts
    · subst hts
      have hv : (v.flatMap fun psd =>
          tikvPairContrib ts' emptyTag (psd.resourceGroupTag, tikvItemOf ts' psd)) = v := by
        apply flatMap_congr_singleton
        intro psd hpsd
        have hne := hav (ts', v) (by simp) psd hpsd
        simp [tikvPairContrib, tikvItemOf, hne]
      rw [hv]
      have hlk : lookupA ts' rest = none :=
        lookupA_eq_none_of_not_mem _ _ (by
          intro hmem
          exact hnd.1 (by simpa [keysA] using hmem))
      rw [hlk]
      simp [lookupA]
    · have hv : (v.flatMap fun psd =>
          tikvPairContrib ts emptyTag (psd.resourceGroupTag, tikvItemOf ts' psd)) = [] := by
        apply flatMap_congr_nil
        intro psd hpsd
        have hne := hav (ts', v) (by simp) psd hpsd
        simp [tikvPairContrib, tikvItemOf, hne, hts]
      rw [hv]
      simp [lookupA, hts]

theorem mem_tikvKeptAt (n : Nat) (v : List TikvPSD) (x : TikvPSD)
    (h : x ∈ tikvKeptAt n v) : x ∈ v := by
  unfold tikvKeptAt at h
  by_cases hlen : v.length ≤ n
  · rw [if_pos hlen] at h
    exact h
  · rw [if_neg hlen] at h
    exact (List.perm_insertionSort cpuDescK v).subset (List.mem_of_mem_take h)

/-- The timestamp groups after phase B's per-timestamp truncation. -/
def tikvKeptEntries (decodeTag : List Nat → Option (String × String × String))
    (responses : List ResourceUsageRecord) (topN : Nat) : List (Nat × List TikvPSD) :=
  (tikvPhaseA decodeTag responses).tsDigests.map (fun p => (p.1, tikvKeptAt topN p.2))

theorem tikvPhaseB_fst_kept (decodeTag : List Nat → Option (String × String × String))
    (responses : List ResourceUsageRecord) (topN : Nat) :
    (tikvPhaseB topN (tikvPhaseA decodeTag responses).tsDigests
        (tikvPhaseA decodeTag responses).tsOthers).1
      = tikvKeptEntries decodeTag responses topN :=
  tikvPhaseB_fst topN _ _

theorem tikvKeptEntries_nodup (decodeTag : List Nat → Option (String × String × String))
    (responses : List ResourceUsageRecord) (topN : Nat) :
    (keysA (tikvKeptEntries decodeTag responses topN)).Nodup := by
  unfold tikvKeptEntries
  rw [keysA_map_val]
  exact tikvPhaseA_nodup decodeTag responses _ (by simp [keysA])

theorem tikvKeptEntries_allVals (decodeTag : List Nat → Option (String × String × String))
    (emptyTag : List Nat) (responses : List ResourceUsageRecord) (topN : Nat)
    (hEmpty : ∀ t, decodeTag emptyTag = some t → t.1 = "") :
    allVals (fun psd : TikvPSD => psd.resourceGroupTag ≠ emptyTag)
      (tikvKeptEntries decodeTag responses topN) := by
  have hwt : allVals (fun psd : TikvPSD =>
      ∃ t, decodeTag psd.resourceGroupTag = some t ∧ t.1 ≠ "")
      (tikvPhaseA decodeTag responses).tsDigests :=
    tikvPhaseA_allVals decodeTag responses _ (by intro p hp; cases hp)
  intro p hp x hx
  rcases List.mem_map.mp hp with ⟨q, hq, rfl⟩
  intro hxeq
  rcases hwt q hq x (mem_tikvKeptAt topN q.2 x hx) with ⟨t, hd, hne1⟩
  rw [hxeq] at hd
  exact hne1 (hEmpty t hd)

theorem tikvKeptEntries_lookup (decodeTag : List Nat → Option (String × String × String))
    (responses : List ResourceUsageRecord) (topN ts : Nat) :
    (lookupA ts (tikvKeptEntries decodeTag responses topN)).getD []
      = tikvKeptAt topN (tikvGatherAt decodeTag responses ts) := by
  have hGA : (lookupA ts (tikvPhaseA decodeTag responses).tsDigests).getD []
      = tikvGatherAt decodeTag responses ts := by
    rw [show tikvPhaseA decodeTag responses
        = responses.foldl (tikvStepA decodeTag)
            { newResponses := [], tsOthers := [], tsDigests := [] } from rfl,
      tikvPhaseA_lookup]
    rfl
  unfold tikvKeptEntries
  rw [lookupA_map_val]
  rcases hcase : lookupA ts (tikvPhaseA decodeTag responses).tsDigests with _ | v
  · rw [hcase] at hGA
    simp only [Option.getD_none] at hGA
    simp [tikvKeptAt, ← hGA]
  · rw [hcase] at hGA
    simp only [Option.getD_some] at hGA
    simp only [Option.map_some', Option.getD_some]
    rw [hGA]

theorem tikvKeptEntries_phaseC_keys
    (decodeTag : List Nat → Option (String × String × String)) (emptyTag : List Nat)
    (responses : List ResourceUsageRecord) (topN : Nat)
    (hEmpty : ∀ t, decodeTag emptyTag = some t → t.1 = "") :
    emptyTag ∉ keysA (tikvPhaseC (tikvKeptEntries decodeTag responses topN) []) := by
  intro hmem
  rcases keysA_tikvPhaseC (tikvKeptEntries decodeTag responses topN) [] emptyTag hmem
    with h | ⟨p, hp, psd, hpsd, hpe⟩
  · simp [keysA] at h
  · exact tikvKeptEntries_allVals decodeTag emptyTag responses topN hEmpty
      p hp psd hpsd hpe

theorem tikvKeptEntries_contrib
    (decodeTag : List Nat → Option (String × String × String)) (emptyTag : List Nat)
    (responses : List ResourceUsageRecord) (topN ts : Nat)
    (hEmpty : ∀ t, decodeTag emptyTag = some t → t.1 = "") :
    ((tikvPairs (tikvPhaseC (tikvKeptEntries decodeTag responses topN) [])).flatMap
        (tikvPairContrib ts emptyTag)).Perm
      (tikvKeptAt topN (tikvGatherAt decodeTag responses ts)) := by
  have hperm := tikvPhaseC_pairs (tikvKeptEntries decodeTag responses topN) []
  rw [show tikvPairs ([] : List (List Nat × List GroupTagRecordItem)) = [] from rfl,
    List.append_nil] at hperm
  refine (List.Perm.flatMap_right (tikvPairContrib ts emptyTag) hperm).trans ?_
  rw [tikvEntriesPairs_flatMap ts emptyTag _
      (tikvKeptEntries_allVals decodeTag emptyTag responses topN hEmpty)
      (tikvKeptEntries_nodup decodeTag responses topN),
    tikvKeptEntries_lookup]

/-- C7 (amended): in the TiKV `keep_top_n`
(`src/src/sources/topsql/upstream/tikv/parser.rs`), assuming the empty
encoded tag decodes to an empty SQL digest, the real (non-`others`)
per-second digests emitted at any timestamp `ts` are a permutation of what
per-timestamp retention prescribes for the input's real digests at `ts`
alone: all of them when their number is at most `top_n`, else the first
`top_n` of a cpu-time-descending sort — so the top `top_n` by cpu time,
every dropped digest having cpu time at most that of every kept one.
Retention at `ts` depends only on the input's digests at `ts`. (The
extensions TiDB variant ranks globally instead; see the counterexample.) -/
theorem c7_per_ts_topn_theorem
    (decodeTag : List Nat → Option (String × String × String)) (emptyTag : List Nat)
    (responses : List ResourceUsageRecord) (topN ts : Nat)
    (hEmpty : ∀ t, decodeTag emptyTag = some t → t.1 = "") :
    (tikvOutRealAt emptyTag (tikvKeepTopN decodeTag emptyTag responses topN) ts).Perm
        (tikvKeptAt topN (tikvGatherAt decodeTag responses ts))
      ∧ ((tikvGatherAt decodeTag responses ts).length ≤ topN →
          tikvKeptAt topN (tikvGatherAt decodeTag responses ts)
            = tikvGatherAt decodeTag responses ts)
      ∧ (topN < (tikvGatherAt decodeTag responses ts).length →
          tikvKeptAt topN (tikvGatherAt decodeTag responses ts)
              = ((tikvGatherAt decodeTag responses ts).insertionSort cpuDescK).take topN
            ∧ ∀ x ∈ tikvKeptAt topN (tikvGatherAt decodeTag responses ts),
                ∀ y ∈ ((tikvGatherAt decodeTag responses ts).insertionSort
                    cpuDescK).drop topN, cpuDescK x y) := by
  refine ⟨?_, ?_, ?_⟩
  · have hout : tikvKeepTopN decodeTag emptyTag responses topN
        = (tikvPhaseA decodeTag responses).newResponses ++
          (if (tikvPhaseB topN (tikvPhaseA decodeTag responses).tsDigests
                (tikvPhaseA decodeTag responses).tsOthers).2 = []
           then tikvPhaseC (tikvPhaseB topN (tikvPhaseA decodeTag responses).tsDigests
                (tikvPhaseA decodeTag responses).tsOthers).1 []
           else setA emptyTag
                ((tikvPhaseB topN (tikvPhaseA decodeTag responses).tsDigests
                  (tikvPhaseA decodeTag responses).tsOthers).2.map Prod.snd)
                (tikvPhaseC (tikvPhaseB topN (tikvPhaseA decodeTag responses).tsDigests
                  (tikvPhaseA decodeTag responses).tsOthers).1 [])).map
            (fun p =>
              ResourceUsageRecord.record { resourceGroupTag := p.1, items := p.2 }) := rfl
    have hnew : ∀ r ∈ (tikvPhaseA decodeTag responses).newResponses,
        r = ResourceUsageRecord.emptyOneof :=
      tikvPhaseA_newResponses decodeTag responses _ (by intro r hr; cases hr)
    rw [hout, tikvOutRealAt_append,
      tikvOutRealAt_passthrough emptyTag ts _ hnew, List.nil_append,
      tikvOutRealAt_records, tikvPhaseB_fst_kept decodeTag responses topN]
    set os := (tikvPhaseB topN (tikvPhaseA decodeTag responses).tsDigests
        (tikvPhaseA decodeTag responses).tsOthers).2 with hos
    by_cases hb2 : os = []
    · rw [if_pos hb2]
      exact tikvKeptEntries_contrib decodeTag emptyTag responses topN ts hEmpty
    · rw [if_neg hb2,
        setA_eq_append emptyTag _ _
          (tikvKeptEntries_phaseC_keys decodeTag emptyTag responses topN hEmpty)]
      have hpapp : tikvPairs (tikvPhaseC (tikvKeptEntries decodeTag responses topN) []
          ++ [(emptyTag, os.map Prod.snd)])
          = tikvPairs (tikvPhaseC (tikvKeptEntries decodeTag responses topN) [])
            ++ (os.map Prod.snd).map (fun it => (emptyTag, it)) := by
        unfold tikvPairs
        rw [List.flatMap_append]
        simp
      rw [hpapp, List.flatMap_append]
      have hnil : (((os.map Prod.snd).map (fun it => (emptyTag, it))).flatMap
          (tikvPairContrib ts emptyTag)) = [] := by
        apply flatMap_congr_nil
        intro q hq
        rcases List.mem_map.mp hq with ⟨it, _, hit⟩
        rw [← hit]
        simp [tikvPairContrib]
      rw [hnil, List.append_nil]
      exact tikvKeptEntries_contrib decodeTag emptyTag responses topN ts hEmpty
  · intro hlen
    unfold tikvKeptAt
    rw [if_pos hlen]
  · intro hlen
    have hk : tikvKeptAt topN (tikvGatherAt decodeTag responses ts)
        = ((tikvGatherAt decodeTag responses ts).insertionSort cpuDescK).take topN := by
      unfold tikvKeptAt
      rw [if_neg (by omega)]
    refine ⟨hk, ?_⟩
    intro x hx y hy
    rw [hk] at hx
    have hs : List.Pairwise cpuDescK
        (((tikvGatherAt decodeTag responses ts).insertionSort cpuDescK).take topN
          ++ ((tikvGatherAt decodeTag responses ts).insertionSort cpuDescK).drop topN) := by
      rw [List.take_append_drop]
      exact List.sorted_insertionSort cpuDescK _
    exact (List.pairwise_append.mp hs).2.2 x hx y hy

def c7WitnessDecode (tag : List Nat) : Option (String × String × String) :=
  if tag = [] then some ("", "", "") else some ("inst", "", "")

def c7WitnessInput : List ResourceUsageRecord :=
  [ResourceUsageRecord.record
     { resourceGroupTag := [1],
       items := [{ timestampSec := 5, cpuTimeMs := 7, readKeys := 0, writeKeys := 0 }] },
   ResourceUsageRecord.record
     { resourceGroupTag := [2],
       items := [{ timestampSec := 5, cpuTimeMs := 9, readKeys := 0, writeKeys := 0 }] }]

/-- C7 witness: two real digests at timestamp 5 with `top_n = 1` — the
output's real digests at 5 are the per-timestamp top 1. -/
theorem c7_per_ts_topn_witness :
    (∀ t, c7WitnessDecode [] = some t → t.1 = "")
      ∧ (tikvOutRealAt [] (tikvKeepTopN c7WitnessDecode [] c7WitnessInput 1) 5).Perm
          (tikvKeptAt 1 (tikvGatherAt c7WitnessDecode c7WitnessInput 5)) := by
  have hEmpty : ∀ t, c7WitnessDecode [] = some t → t.1 = "" := by
    intro t h
    rw [show c7WitnessDecode [] = some ("", "", "") from rfl] at h
    cases h
    rfl
  exact ⟨hEmpty, (c7_per_ts_topn_theorem c7WitnessDecode [] c7WitnessInput 1 5 hEmpty).1⟩

end VecExt
